import Mathlib

/-!
Formal model of the storage-provisioning engine in `tools/raid_manager.py`
(Homelabs-Pi-Storage).  Python functions are embedded as pure Lean
functions; external command execution is modelled by passing the probe
results (command outputs / success flags) in explicitly, and destructive
sequences are modelled as the list of commands (argv lists) they issue.
Python's unbounded `int` is `Int`/`Nat`.  The `float` product inside the
size parser is modelled twice: `parseSize` is an exact-arithmetic
simplification (adequate where only the sign or a coarse threshold of
the result matters, as in the inventory model), while `parseSizeF`
models the IEEE-754 binary64 arithmetic bit-accurately (decimal
rounded to the nearest double with ties to even, exact power-of-two
scaling by the multiplier, truncation toward zero, `OverflowError` on
an infinite product).
-/

set_option maxRecDepth 2000

namespace RaidManager

/-- Python `str.upper()` restricted to ASCII letters (the only characters
the disk-size strings contain). -/
def pyUpperChar (c : Char) : Char :=
  if 'a' ≤ c ∧ c ≤ 'z' then Char.ofNat (c.toNat - 32) else c

/-- One character of `size_str.replace(',', '.').upper()`: the comma is
replaced first, then the result upper-cased (a dot is unaffected by
upper-casing). -/
def normChar (c : Char) : Char :=
  pyUpperChar (if c = ',' then '.' else c)

/-- Python `str.strip()` on a character list. -/
def pyStrip (l : List Char) : List Char :=
  ((l.dropWhile Char.isWhitespace).reverse.dropWhile Char.isWhitespace).reverse

/-- Value of a digit string read in base 10 (empty string gives 0, as in
`float("1.")` where the fractional part is empty). -/
def digitsVal (l : List Char) : ℕ :=
  l.foldl (fun a c => 10 * a + (c.toNat - 48)) 0

/-- Embedding of Python `float(s)` on decimal literals: an optional sign,
then digits with at most one decimal point and at least one digit.
The exact value is represented as a pair `(n, p)` standing for
`n / 10 ^ p`.  Returns `none` where Python raises `ValueError`.  (Python
additionally accepts exponents, underscores and `inf`/`nan`, which never
occur in `lsblk` size strings.) -/
def parseDecimalChars (l : List Char) : Option (ℤ × ℕ) :=
  let signBody : ℤ × List Char :=
    match l with
    | '-' :: r => (-1, r)
    | '+' :: r => (1, r)
    | _ => (1, l)
  let sign := signBody.1
  let body := signBody.2
  if body.all (fun c => c.isDigit || c = '.') && body.count '.' ≤ 1
      && body.any Char.isDigit then
    let ip := body.takeWhile (fun c => c ≠ '.')
    let fp := (body.dropWhile (fun c => c ≠ '.')).drop 1
    some (sign * ((digitsVal ip : ℤ) * 10 ^ fp.length + (digitsVal fp : ℤ)),
          fp.length)
  else
    none

/-- Division of an integer by a positive natural, truncated toward zero:
this is Python `int(x)` applied to the exact value `a / b`. -/
def intTruncDiv (a : ℤ) (b : ℕ) : ℤ :=
  if 0 ≤ a then ((a.toNat / b : ℕ) : ℤ) else -(((-a).toNat / b : ℕ) : ℤ)

/-- `int(number * multiplier)` where `number` is the exact decimal
`n / 10 ^ p`: multiply the numerator and truncate toward zero.  This is
an exact-arithmetic simplification: CPython computes the product in
IEEE-754 binary64, whose rounding can move the result by one unit at
petabyte scale (`"10.9P"`).  The bit-accurate model is
`pyFloatScaledTrunc` below; the inventory model uses `parseSize` only
through its sign, where rounding the decimal to a double cannot change
the outcome. -/
def applyMultTrunc (v : ℤ × ℕ) (mult : ℤ) : ℤ :=
  intTruncDiv (v.1 * mult) (10 ^ v.2)

/-- The `multipliers` table of `_parse_size`, in Python dict insertion
order (B, K, M, G, T, P); every suffix is a single character. -/
def sizeMultipliers : List (Char × ℤ) :=
  [('B', 1), ('K', 1024), ('M', 1024 ^ 2), ('G', 1024 ^ 3),
   ('T', 1024 ^ 4), ('P', 1024 ^ 5)]

/-- The fall-through branch of `_parse_size`: `int(float(size_str))` on
the normalized string, `0` on `ValueError`. -/
def parseSizeFallback (t : List Char) : ℤ :=
  match parseDecimalChars t with
  | some v => applyMultTrunc v 1
  | none => 0

/-- Core of `DiskManager._parse_size` on the character list of the input
string.  The suffix loop checks `endswith` for each single-character
suffix in table order, which is equivalent to looking the last character
up in the table; on a parse failure of the prefix Python `break`s out of
the loop and falls through to the suffix-free branch applied to the whole
normalized string.  The arithmetic tail `applyMultTrunc` is the
exact-value simplification of the float product; `parseSizeCharsF`
below is the same pipeline with the bit-accurate binary64 tail. -/
def parseSizeChars (l : List Char) : ℤ :=
  if l = [] then 0
  else
    let t := pyStrip (l.map normChar)
    match t.getLast? with
    | none => parseSizeFallback t
    | some c =>
      match sizeMultipliers.find? (fun p => p.1 = c) with
      | none => parseSizeFallback t
      | some pr =>
        match parseDecimalChars (pyStrip t.dropLast) with
        | some v => applyMultTrunc v pr.2
        | none => parseSizeFallback t

/-- `DiskManager._parse_size`: converts an `lsblk` size string to bytes. -/
def parseSize (s : String) : ℤ :=
  parseSizeChars s.data

/-- Fuel-based bit length of a natural number; the fuel `n` itself always
suffices because the argument halves at every step. -/
def natBitsAux : ℕ → ℕ → ℕ
  | 0, _ => 0
  | fuel + 1, n => if n = 0 then 0 else natBitsAux fuel (n / 2) + 1

/-- Bit length of a natural: `0` for `0`, `⌊log₂ n⌋ + 1` otherwise. -/
def bitLen (n : ℕ) : ℕ :=
  natBitsAux n n

/-- Whether `2 ^ e ≤ a / b`, for positive naturals `a`, `b` and an
integer exponent `e`. -/
def pow2LE (a b : ℕ) (e : ℤ) : Bool :=
  if 0 ≤ e then b * 2 ^ e.toNat ≤ a else b ≤ a * 2 ^ (-e).toNat

/-- `⌊log₂ (a / b)⌋` for positive naturals: the bit-length difference,
corrected down by one when `a / b` falls below `2 ^ base`. -/
def posExp (a b : ℕ) : ℤ :=
  let base : ℤ := (bitLen a : ℤ) - (bitLen b : ℤ)
  if pow2LE a b base then base else base - 1

/-- Round the positive rational `a / b` to a 53-bit floating-point
significand, to nearest with ties to even: the result `(n, e)` satisfies
`2 ^ 52 ≤ n < 2 ^ 53` and stands for the double `n · 2 ^ (e - 52)`.
This is IEEE-754 binary64 rounding on an unbounded exponent range; the
subnormal grid below `2 ^ (-1022)` never matters in `_parse_size`
because any such double still truncates to `0` after scaling by at most
`2 ^ 50`, and overflow past the largest finite double is detected by the
exponent test in `pyFloatScaledTrunc`. -/
def roundPos (a b : ℕ) : ℕ × ℤ :=
  let e := posExp a b
  let s := 52 - e
  let AB : ℕ × ℕ :=
    if 0 ≤ s then (a * 2 ^ s.toNat, b) else (a, b * 2 ^ (-s).toNat)
  let q := AB.1 / AB.2
  let r := AB.1 % AB.2
  let n := if 2 * r < AB.2 then q
           else if AB.2 < 2 * r then q + 1
           else if q % 2 = 0 then q else q + 1
  if n = 2 ^ 53 then (2 ^ 52, e + 1) else (n, e)

/-- Exponent of a power-of-two multiplier: every value in
`sizeMultipliers` is `1024 ^ j = 2 ^ (10 j)`, so converting the
multiplier to a `float` is exact and multiplying by it only shifts the
exponent of the double. -/
def multExp (m : ℤ) : ℕ :=
  bitLen m.natAbs - 1

/-- `int(float(n / 10 ^ p) * 2 ^ tens)` in IEEE-754 binary64: the
decimal is rounded to the nearest double (ties to even), the
power-of-two scaling is exact, and `int()` truncates toward zero.
`none` models the uncaught `OverflowError` that `int()` raises when the
product is infinite (rounded magnitude at least `2 ^ 1024`), which the
source's `except ValueError` does not intercept. -/
def pyFloatScaledTrunc (v : ℤ × ℕ) (tens : ℕ) : Option ℤ :=
  if v.1 = 0 then some 0
  else
    let me := roundPos v.1.natAbs (10 ^ v.2)
    if 1024 ≤ me.2 + tens then none
    else
      let E : ℤ := me.2 - 52 + tens
      let mag : ℕ :=
        if 0 ≤ E then me.1 * 2 ^ E.toNat else me.1 / 2 ^ (-E).toNat
      some (if v.1 < 0 then -(mag : ℤ) else (mag : ℤ))

/-- The fall-through branch of `_parse_size` with bit-accurate binary64
arithmetic: `int(float(size_str))` on the normalized string, `0` on
`ValueError`. -/
def parseSizeFallbackF (t : List Char) : Option ℤ :=
  match parseDecimalChars t with
  | some v => pyFloatScaledTrunc v 0
  | none => some 0

/-- `parseSizeChars` with the bit-accurate binary64 arithmetic tail: the
found multiplier `pr.2` is always `2 ^ (10 j)`, so the float product
`float(number_str) * multiplier` is `pyFloatScaledTrunc` at the exponent
`multExp pr.2`. -/
def parseSizeCharsF (l : List Char) : Option ℤ :=
  if l = [] then some 0
  else
    let t := pyStrip (l.map normChar)
    match t.getLast? with
    | none => parseSizeFallbackF t
    | some c =>
      match sizeMultipliers.find? (fun p => p.1 = c) with
      | none => parseSizeFallbackF t
      | some pr =>
        match parseDecimalChars (pyStrip t.dropLast) with
        | some v => pyFloatScaledTrunc v (multExp pr.2)
        | none => parseSizeFallbackF t

/-- Bit-accurate `DiskManager._parse_size`: `none` stands for an
uncaught `OverflowError` on an astronomically large value. -/
def parseSizeF (s : String) : Option ℤ :=
  parseSizeCharsF s.data

/-- The `RAIDType` enumeration of `raid_manager.py`. -/
inductive RAIDType where
  | stripe
  | mirror
  | raidz1
  | raidz2
  | raidz3
  | btrfs_raid0
  | btrfs_raid1
  | btrfs_raid10
  | btrfs_raid5
  | btrfs_raid6
  deriving DecidableEq, Repr

/-- The `Disk` dataclass.  `size` is the parsed byte count (Python
unbounded `int`, hence `Int`). -/
structure Disk where
  name : String
  size : ℤ
  model : String
  serial : String
  sectorSize : ℕ
  isSystem : Bool := false
  hasPartitions : Bool := false
  filesystemType : Option String := none
  mountPoints : List String := []
  deriving DecidableEq, Repr

/-- Python `min(disk.size for disk in disks)`: fold of `min` starting at
the first element (0 only for the empty list, which the caller rules
out). -/
def minDiskSize : List Disk → ℤ
  | [] => 0
  | d :: ds => ds.foldl (fun a x => min a x.size) d.size

/-- Python `sum(disk.size for disk in disks)`. -/
def totalRawSize (disks : List Disk) : ℤ :=
  disks.foldl (fun a x => a + x.size) 0

/-- Numeric content of the dictionary built by `_calculate_raid_capacity`
before the human-readable size formatting (`size_to_human` and the
`"{:.1f}%"` rendering are presentation only):
`tolerance` is the failure count named in the `redundancy` text
(`none` when the text carries no count: the empty-disk-list early return
and BTRFS RAID10's "Tolerancia múltiple"); `efficiencyNum` is the exact
percentage that the source formats to one decimal (`none` when no
efficiency is reported). -/
structure CapacityCalc where
  totalRaw : ℤ
  minDisk : ℤ
  usable : ℤ
  tolerance : Option ℕ
  efficiencyNum : Option ℚ
  deriving DecidableEq, Repr

/-- `RAIDManager._calculate_raid_capacity`.  Note that the function has
no disk-count validation: every branch computes a report, including the
empty-disk early return. -/
def calculateRaidCapacity (raidType : RAIDType) (disks : List Disk) :
    CapacityCalc :=
  if disks = [] then
    { totalRaw := 0, minDisk := 0, usable := 0,
      tolerance := none, efficiencyNum := none }
  else
    let minSize := minDiskSize disks
    let totalRaw := totalRawSize disks
    let diskCount := disks.length
    match raidType with
    | .stripe | .btrfs_raid0 =>
      { totalRaw := totalRaw, minDisk := minSize, usable := totalRaw,
        tolerance := some 0, efficiencyNum := some 100 }
    | .mirror | .btrfs_raid1 =>
      { totalRaw := totalRaw, minDisk := minSize,
        usable := minSize * (diskCount / 2 : ℕ),
        tolerance := some (diskCount / 2),
        efficiencyNum := some ((((diskCount / 2 : ℕ) : ℚ) / diskCount) * 100) }
    | .raidz1 =>
      { totalRaw := totalRaw, minDisk := minSize,
        usable := minSize * ((diskCount : ℤ) - 1),
        tolerance := some 1,
        efficiencyNum := some ((((diskCount : ℚ) - 1) / diskCount) * 100) }
    | .raidz2 =>
      { totalRaw := totalRaw, minDisk := minSize,
        usable := minSize * ((diskCount : ℤ) - 2),
        tolerance := some 2,
        efficiencyNum := some ((((diskCount : ℚ) - 2) / diskCount) * 100) }
    | .raidz3 =>
      { totalRaw := totalRaw, minDisk := minSize,
        usable := minSize * ((diskCount : ℤ) - 3),
        tolerance := some 3,
        efficiencyNum := some ((((diskCount : ℚ) - 3) / diskCount) * 100) }
    | .btrfs_raid10 =>
      { totalRaw := totalRaw, minDisk := minSize,
        usable := minSize * (diskCount / 2 : ℕ),
        tolerance := none,
        efficiencyNum := some 50 }
    | .btrfs_raid5 =>
      { totalRaw := totalRaw, minDisk := minSize,
        usable := minSize * ((diskCount : ℤ) - 1),
        tolerance := some 1,
        efficiencyNum := some ((((diskCount : ℚ) - 1) / diskCount) * 100) }
    | .btrfs_raid6 =>
      { totalRaw := totalRaw, minDisk := minSize,
        usable := minSize * ((diskCount : ℤ) - 2),
        tolerance := some 2,
        efficiencyNum := some ((((diskCount : ℚ) - 2) / diskCount) * 100) }

/-- The option list built by `RAIDManager._select_zfs_raid_type`: each
topology is offered only when its `disk_count` gate holds, so an
option the menu does not list can never be returned by the prompt
loop. -/
def zfsRaidOptions (diskCount : ℕ) : List RAIDType :=
  [RAIDType.stripe]
    ++ (if diskCount ≥ 2 then [RAIDType.mirror] else [])
    ++ (if diskCount ≥ 3 then [RAIDType.raidz1] else [])
    ++ (if diskCount ≥ 4 then [RAIDType.raidz2] else [])
    ++ (if diskCount ≥ 5 then [RAIDType.raidz3] else [])

/-- The option list built by `RAIDManager._select_btrfs_raid_type`. -/
def btrfsRaidOptions (diskCount : ℕ) : List RAIDType :=
  [RAIDType.btrfs_raid0]
    ++ (if diskCount ≥ 2 then [RAIDType.btrfs_raid1] else [])
    ++ (if diskCount ≥ 4 then [RAIDType.btrfs_raid10] else [])
    ++ (if diskCount ≥ 3 then [RAIDType.btrfs_raid5] else [])
    ++ (if diskCount ≥ 4 then [RAIDType.btrfs_raid6] else [])

/-- Minimum member count of each topology, as encoded by the
`disk_count` gates of the two selection menus (and as named in the
specification's `RaidTopology.minDisks`). -/
def minDisks : RAIDType → ℕ
  | .stripe => 1
  | .mirror => 2
  | .raidz1 => 3
  | .raidz2 => 4
  | .raidz3 => 5
  | .btrfs_raid0 => 1
  | .btrfs_raid1 => 2
  | .btrfs_raid10 => 4
  | .btrfs_raid5 => 3
  | .btrfs_raid6 => 4

/-- Python `str.strip()` on a string. -/
def pyTrim (s : String) : String :=
  ⟨pyStrip s.data⟩

/-- Worker for whitespace splitting: accumulates the current word
(reversed) and emits it at each whitespace run. -/
def pyWordsAux : List Char → List Char → List String
  | [], acc => if acc = [] then [] else [⟨acc.reverse⟩]
  | c :: rest, acc =>
    if c.isWhitespace then
      if acc = [] then pyWordsAux rest []
      else (⟨acc.reverse⟩ : String) :: pyWordsAux rest []
    else pyWordsAux rest (c :: acc)

/-- Python `str.split()` with no argument: split on whitespace runs,
dropping empty pieces. -/
def pySplit (s : String) : List String :=
  pyWordsAux s.data []

/-- Worker for `str.split(sep)` with a non-empty separator, structurally
recursive on a character budget (one unit per consumed character, so
`length + 1` always suffices). -/
def pySplitOnAux (sep : List Char) : ℕ → List Char → List Char →
    List (List Char)
  | _, [], acc => [acc.reverse]
  | 0, l, acc => [acc.reverse ++ l]
  | fuel + 1, c :: rest, acc =>
    if sep.isPrefixOf (c :: rest) then
      acc.reverse :: pySplitOnAux sep fuel ((c :: rest).drop sep.length) []
    else
      pySplitOnAux sep fuel rest (c :: acc)

/-- Python `str.split(sep)` for a non-empty separator: leftmost,
non-overlapping matches, keeping empty pieces. -/
def pySplitOn (s : String) (sep : String) : List String :=
  (pySplitOnAux sep.data (s.data.length + 1) s.data []).map
    (fun l => (⟨l⟩ : String))

/-- Python `s.startswith(pat)`. -/
def pyStartsWith (s pat : String) : Bool :=
  pat.data.isPrefixOf s.data

/-- Python `s.replace(c, "")` for a single-character pattern: delete
every occurrence. -/
def pyRemoveChar (s : String) (c : Char) : String :=
  ⟨s.data.filter (fun x => x ≠ c)⟩

/-- Substring test (`pat in s` in Python) on character lists. -/
def charsContains (pat : List Char) : List Char → Bool
  | [] => pat.isEmpty
  | c :: t => pat.isPrefixOf (c :: t) || charsContains pat t

/-- Python `pat in s` for strings. -/
def strContains (s pat : String) : Bool :=
  charsContains pat.data s.data

/-- `device.split('/')[-1].rstrip('0123456789')`: the partition-digit
stripping used to map a mount source back to its parent disk. -/
def diskBaseName (device : String) : String :=
  ⟨(((pySplitOn device "/").getLastD "").data.reverse.dropWhile Char.isDigit).reverse⟩

/-- Python `set.add`, on the list model of a set: append if absent. -/
def setAdd (s : List String) (x : String) : List String :=
  if x ∈ s then s else s ++ [x]

/-- The `critical_mounts` list probed one by one in
`_get_system_disks`. -/
def criticalMounts : List String :=
  ["/boot", "/usr", "/var", "/etc", "/lib", "/bin", "/sbin", "/home"]

/-- The critical-prefix list of the mounted-device enumeration in
`_get_system_disks`. -/
def enumCriticalPrefixes : List String :=
  ["/", "/boot", "/usr", "/var", "/etc"]

/-- The statically protected device-name family added unconditionally at
the end of the `try` block of `_get_system_disks`. -/
def staticProtected : List String :=
  ["mmcblk0", "mmcblk0boot0", "mmcblk0boot1", "mmcblk0rpmb", "nvme0n1"]

/-- The safety-fallback list installed by the outer `except` handler of
`_get_system_disks`. -/
def fallbackProtected : List String :=
  ["sda", "mmcblk0", "mmcblk0boot0", "mmcblk0boot1", "mmcblk0rpmb", "nvme0n1"]

/-- Probe results consumed by `_get_system_disks`.  `rootProbe = none`
models the very first `findmnt` call raising (any exception lands in the
outer handler, which installs the fallback list); `criticalProbe mp =
none` and `enumProbe = none` model the individually caught
`CalledProcessError`s of the two later probe groups. -/
structure SystemProbeEnv where
  rootProbe : Option String
  criticalProbe : String → Option String
  enumProbe : Option (List String)

/-- `DiskManager._get_system_disks`.  The Python `set` is modelled as a
duplicate-free list built with `setAdd`; only membership is ever
consumed. -/
def getSystemDisks (env : SystemProbeEnv) : List String :=
  match env.rootProbe with
  | none => fallbackProtected
  | some rootOut =>
    let rootDevice := pyTrim rootOut
    let s1 : List String :=
      if rootDevice ≠ "" then setAdd [] (diskBaseName rootDevice) else []
    let s2 := criticalMounts.foldl
      (fun acc mp =>
        match env.criticalProbe mp with
        | none => acc
        | some out =>
          let dev := pyTrim out
          if dev ≠ "" then setAdd acc (diskBaseName dev) else acc) s1
    let s3 :=
      match env.enumProbe with
      | none => s2
      | some lines => lines.foldl
          (fun acc line =>
            if pyTrim line ≠ "" then
              match pySplit line with
              | dev :: mountPoint :: _ =>
                if enumCriticalPrefixes.any (fun c => pyStartsWith mountPoint c)
                    && pyStartsWith dev "/dev/" then
                  setAdd acc (diskBaseName dev)
                else acc
              | _ => acc
            else acc) s2
    staticProtected.foldl setAdd s3

/-- One `children` entry of an `lsblk -J` device (only the fields
`_parse_disk_info` reads); `none` models both an absent key and a JSON
`null`, which Python's truthiness tests treat like the empty string. -/
structure LsblkChild where
  fstype : Option String := none
  mountpoint : Option String := none
  deriving DecidableEq, Repr

/-- One top-level `lsblk -J` block device. -/
structure LsblkDevice where
  name : String
  size : String
  model : Option String := none
  serial : Option String := none
  physSec : ℕ := 512
  type : String
  children : List LsblkChild := []
  deriving DecidableEq, Repr

/-- The critical mount-point list of `_parse_disk_info` (note: unlike
`criticalMounts` it contains `/` and not `/home`). -/
def parseCriticalMounts : List String :=
  ["/", "/boot", "/usr", "/var", "/etc", "/lib", "/bin", "/sbin"]

/-- One iteration of the `children` loop of `_parse_disk_info`,
accumulating (filesystemType, mountPoints, isSystem). -/
def parseChildStep (acc : Option String × List String × Bool)
    (child : LsblkChild) : Option String × List String × Bool :=
  let fs := if child.fstype.getD "" ≠ "" then child.fstype else acc.1
  match child.mountpoint with
  | some mp =>
    if mp ≠ "" then
      (fs, acc.2.1 ++ [mp], acc.2.2 || decide (mp ∈ parseCriticalMounts))
    else (fs, acc.2.1, acc.2.2)
  | none => (fs, acc.2.1, acc.2.2)

/-- `DiskManager._parse_disk_info`: `none` is the `return None` branch
that silently drops a device whose size parses to a non-positive
value. -/
def parseDiskInfo (device : LsblkDevice) (systemDisks : List String) :
    Option Disk :=
  let sizeBytes := parseSize device.size
  if sizeBytes ≤ 0 then none
  else
    let init : Option String × List String × Bool :=
      (none, [], decide (device.name ∈ systemDisks))
    let r := device.children.foldl parseChildStep init
    some { name := device.name
           size := sizeBytes
           model := device.model.getD "Desconocido"
           serial := device.serial.getD "Desconocido"
           sectorSize := device.physSec
           isSystem := r.2.2
           hasPartitions := !device.children.isEmpty
           filesystemType := r.1
           mountPoints := r.2.1 }

/-- One iteration of the device loop of `detect_disks`: keep the entry
when its type is `"disk"` and the parse succeeds. -/
def detectStep (systemDisks : List String) (acc : List Disk)
    (dev : LsblkDevice) : List Disk :=
  if dev.type = "disk" then
    match parseDiskInfo dev systemDisks with
    | some d => acc ++ [d]
    | none => acc
  else acc

/-- `DiskManager.detect_disks` on an already-decoded `lsblk` device
list. -/
def detectDisks (devices : List LsblkDevice) (systemDisks : List String) :
    List Disk :=
  devices.foldl (detectStep systemDisks) []

/-- The dictionary built by `_analyze_disk_configuration`
(`DiskResidualState` in the specification).  The human-readable
`details` strings reproduce the source's f-strings except that the
single quotes the source puts around interpolated names are omitted
here. -/
structure DiskResidualInfo where
  hasData : Bool
  details : List String
  zfsPools : List String
  btrfsFilesystems : List String
  mdadmArrays : List String
  lvmVolumes : List String
  mountedPartitions : List String
  partitions : List String
  deriving DecidableEq, Repr

/-- The freshly initialised `info` dictionary. -/
def emptyResidualInfo : DiskResidualInfo :=
  { hasData := false, details := [], zfsPools := [], btrfsFilesystems := []
    mdadmArrays := [], lvmVolumes := [], mountedPartitions := []
    partitions := [] }

/-- Probe outputs consumed by `_analyze_disk_configuration`, one per
best-effort probe; `none` models the `CalledProcessError` that the
probe's own `except` swallows (including an absent tool for the probes
guarded by `which`). -/
structure AnalyzeProbes where
  lsblkLines : Option (List String) := none
  zpoolStatusLines : Option (List String) := none
  btrfsShowLines : Option (List String) := none
  mdstatLines : Option (List String) := none
  pvsLines : Option (List String) := none

/-- One line of probe 1 (partition enumeration via `lsblk -n`). -/
def partitionStep (diskName : String) (info : DiskResidualInfo)
    (line : String) : DiskResidualInfo :=
  if pyTrim line ≠ "" then
    match pySplit line with
    | [] => info
    | p0 :: rest =>
      let partName := pyTrim p0
      let mountpoint : Option String :=
        match rest with
        | mp :: _ => if mp ≠ "" then some (pyTrim mp) else none
        | [] => none
      let fstype : Option String :=
        match rest with
        | _ :: ft :: _ => if ft ≠ "" then some (pyTrim ft) else none
        | _ => none
      if partName ≠ diskName then
        let info1 := { info with partitions := info.partitions ++ [partName]
                                 hasData := true }
        match mountpoint with
        | some mp =>
          { info1 with
            mountedPartitions :=
              info1.mountedPartitions ++ ["/dev/" ++ partName ++ " en " ++ mp]
            details :=
              info1.details ++ ["Partición " ++ partName ++ " montada en " ++ mp] }
        | none =>
          match fstype with
          | some ft =>
            { info1 with details :=
                info1.details ++ ["Partición " ++ partName ++ " con filesystem " ++ ft] }
          | none =>
            { info1 with details := info1.details ++ ["Partición " ++ partName] }
      else info
  else info

/-- One line of probe 2 (`zpool status` state machine).  The
`current_pool` variable starts as `None`; Python only ever tests it for
truthiness, where `None` and the empty string coincide, so it is
modelled as a `String` with `""` for `None`. -/
def zfsPoolStep (diskName : String) (st : DiskResidualInfo × String)
    (rawLine : String) : DiskResidualInfo × String :=
  let line := pyTrim rawLine
  if pyStartsWith line "pool:" then
    (st.1, pyTrim ((pySplitOn line "pool:").getD 1 ""))
  else
    if st.2 ≠ ""
        && (strContains line diskName
            || (List.range 9).any
                 (fun i => strContains line (diskName ++ "p" ++ toString (i + 1)))) then
      if st.2 ∈ st.1.zfsPools then st
      else
        ({ st.1 with zfsPools := st.1.zfsPools ++ [st.2]
                     hasData := true
                     details := st.1.details ++ ["Miembro del pool ZFS " ++ st.2] },
         st.2)
    else st

/-- State of probe 3 (`btrfs filesystem show`): the info so far, the
`current_uuid` (genuinely `None`-able: a `devid` line hitting a `None`
uuid with no label raises an uncaught `TypeError`) and `current_label`
(truthiness-tested only, `""` models `None`). -/
def btrfsStep (devicePath : String)
    (st : Option (DiskResidualInfo × Option String × String))
    (line : String) : Option (DiskResidualInfo × Option String × String) :=
  match st with
  | none => none
  | some (info, uuid, label) =>
    if strContains line "uuid:" then
      some (info, some (pyTrim ((pySplitOn line "uuid:").getD 1 "")), "")
    else if strContains line "Label:" then
      some (info, uuid,
        pyRemoveChar (pyTrim ((pySplitOn line "Label:").getD 1 ""))
          (Char.ofNat 39))
    else if strContains line "devid" && strContains line devicePath then
      let fsNameOpt : Option String :=
        if label ≠ "" then some label
        else match uuid with
          | some u => some ("UUID " ++ String.mk (u.data.take 8) ++ "...")
          | none => none
      match fsNameOpt with
      | none => none
      | some fsName =>
        some ({ info with btrfsFilesystems := info.btrfsFilesystems ++ [fsName]
                          hasData := true
                          details := info.details
                            ++ ["Miembro del filesystem BTRFS " ++ fsName] },
              uuid, label)
    else some (info, uuid, label)

/-- One line of probe 4 (`/proc/mdstat`). -/
def mdadmLineStep (diskName : String) (info : DiskResidualInfo)
    (line : String) : DiskResidualInfo :=
  if strContains line "active" && strContains line diskName then
    let arrayName := pyTrim ((pySplitOn line ":").getD 0 "")
    { info with mdadmArrays := info.mdadmArrays ++ [arrayName]
                hasData := true
                details := info.details ++ ["Miembro del array MDADM " ++ arrayName] }
  else info

/-- One line of probe 5 (`pvs --noheadings`). -/
def pvsStep (devicePath : String) (info : DiskResidualInfo)
    (line : String) : DiskResidualInfo :=
  if pyTrim line ≠ "" && strContains line devicePath then
    match pySplit line with
    | _ :: vgName :: _ =>
      { info with lvmVolumes := info.lvmVolumes ++ [vgName]
                  hasData := true
                  details := info.details ++ ["Physical Volume en VG " ++ vgName] }
    | _ => info
  else info

/-- Probe 1 applied to the `info` built so far (`none` = the probe's
`except` ate a `CalledProcessError`, leaving `info` untouched). -/
def phasePartitions (diskName : String) (probe : Option (List String))
    (info : DiskResidualInfo) : DiskResidualInfo :=
  match probe with
  | none => info
  | some lines => lines.foldl (partitionStep diskName) info

/-- Probe 2 (`zpool status` state machine, starting with no current
pool). -/
def phaseZfs (diskName : String) (probe : Option (List String))
    (info : DiskResidualInfo) : DiskResidualInfo :=
  match probe with
  | none => info
  | some lines => (lines.foldl (zfsPoolStep diskName) (info, "")).1

/-- Probe 3 (`btrfs filesystem show`); `none` propagates the uncaught
`TypeError`. -/
def phaseBtrfs (devicePath : String) (probe : Option (List String))
    (info : DiskResidualInfo) : Option DiskResidualInfo :=
  match probe with
  | none => some info
  | some lines =>
    (lines.foldl (btrfsStep devicePath) (some (info, none, ""))).map
      (fun st => st.1)

/-- Probe 4 (`/proc/mdstat`). -/
def phaseMdadm (diskName : String) (probe : Option (List String))
    (info : DiskResidualInfo) : DiskResidualInfo :=
  match probe with
  | none => info
  | some lines => lines.foldl (mdadmLineStep diskName) info

/-- Probe 5 (`pvs`). -/
def phasePvs (devicePath : String) (probe : Option (List String))
    (info : DiskResidualInfo) : DiskResidualInfo :=
  match probe with
  | none => info
  | some lines => lines.foldl (pvsStep devicePath) info

/-- `RAIDManager._analyze_disk_configuration`: the five probes run in
order, each best-effort; `none` models the uncaught `TypeError` that the
btrfs probe can raise (it aborts the whole analysis, so no dictionary is
produced). -/
def analyzeDiskConfiguration (diskName : String) (probes : AnalyzeProbes) :
    Option DiskResidualInfo :=
  match phaseBtrfs ("/dev/" ++ diskName) probes.btrfsShowLines
      (phaseZfs diskName probes.zpoolStatusLines
        (phasePartitions diskName probes.lsblkLines emptyResidualInfo)) with
  | none => none
  | some i3 =>
    some (phasePvs ("/dev/" ++ diskName) probes.pvsLines
      (phaseMdadm diskName probes.mdstatLines i3))

/-- External-world outcomes consumed by the teardown sequence: the
success of each issued command (`run_command_safe`), the
`findmnt -t btrfs` output (probed only when btrfs filesystems were
found; `none` = non-zero return code) and the parsed byte size from
`lsblk --bytes` (`none` = non-zero return code or `ValueError`). -/
structure CleanupEnv where
  cmdOk : List String → Bool
  btrfsFindmnt : Option (List String) := none
  lsblkSizeBytes : Option ℕ := none

/-- Commands issued for one `mounted_partitions` entry (entries are
`"/dev/X en MP"` strings; the device is recovered by splitting on
`" en "`): a plain unmount, retried once with `-f` when it fails. -/
def unmountCmds (env : CleanupEnv) (entry : String) : List (List String) :=
  let partition := (pySplitOn entry " en ").getD 0 ""
  [["umount", partition]]
    ++ (if env.cmdOk ["umount", partition] then []
        else [["umount", "-f", partition]])

/-- Step 1 of `_perform_disk_cleanup`: unmount every entry of
`mounted_partitions`. -/
def unmountTrace (env : CleanupEnv) (mountedPartitions : List String) :
    List (List String) :=
  mountedPartitions.foldl (fun acc entry => acc ++ unmountCmds env entry) []

/-- Commands issued for one pool: best-effort export, forced destroy. -/
def zfsDestroyCmds (pool : String) : List (List String) :=
  [["zpool", "export", pool], ["zpool", "destroy", "-f", pool]]

/-- Step 2 of `_perform_disk_cleanup`: destroy every detected pool. -/
def zfsDestroyTrace (pools : List String) : List (List String) :=
  pools.foldl (fun acc pool => acc ++ zfsDestroyCmds pool) []

/-- Commands issued for one `findmnt -t btrfs` line referencing the
disk: a plain unmount of its mount point, retried once with `-f`. -/
def btrfsLineCmds (env : CleanupEnv) (devicePath : String) (line : String) :
    List (List String) :=
  if pyTrim line ≠ "" && strContains line devicePath then
    let mountpoint := (pySplit line).getD 0 ""
    [["umount", mountpoint]]
      ++ (if env.cmdOk ["umount", mountpoint] then []
          else [["umount", "-f", mountpoint]])
  else []

/-- Step 3: when btrfs membership was found, list btrfs mounts and
unmount the ones referencing this disk (plain, then forced). -/
def btrfsCleanupTrace (env : CleanupEnv) (diskName : String)
    (hasBtrfs : Bool) : List (List String) :=
  if hasBtrfs then
    [["findmnt", "-t", "btrfs", "-n", "-o", "TARGET,SOURCE"]]
      ++ (match env.btrfsFindmnt with
          | none => []
          | some lines => lines.foldl
              (fun acc line => acc ++ btrfsLineCmds env ("/dev/" ++ diskName) line)
              [])
  else []

/-- Step 4: stop each mdadm array. -/
def mdadmStopTrace (arrays : List String) : List (List String) :=
  arrays.map (fun a => ["mdadm", "--stop", "/dev/" ++ a])

/-- Commands issued for one volume group: deactivate the VG, pull the
disk out of it, force-remove the PV label. -/
def lvmVgCmds (diskName : String) (vg : String) : List (List String) :=
  [["vgchange", "-an", vg],
   ["vgreduce", vg, "/dev/" ++ diskName],
   ["pvremove", "-ff", "/dev/" ++ diskName]]

/-- Step 5: remove the disk from every detected volume group. -/
def lvmRemoveTrace (diskName : String) (vgs : List String) :
    List (List String) :=
  vgs.foldl (fun acc vg => acc ++ lvmVgCmds diskName vg) []

/-- Step 6, `RAIDManager._wipe_disk_completely`: the full low-level wipe
command sequence (every sub-step best-effort). -/
def wipeDiskCompletely (env : CleanupEnv) (diskName : String) :
    List (List String) :=
  let dev := "/dev/" ++ diskName
  [["which", "zpool"],
   ["zpool", "labelclear", "-f", dev],
   ["mdadm", "--zero-superblock", dev],
   ["wipefs", "-af", dev],
   ["dd", "if=/dev/zero", "of=" ++ dev, "bs=1M", "count=100", "conv=fsync"],
   ["lsblk", "-dpno", "SIZE", dev, "--bytes"]]
    ++ (match env.lsblkSizeBytes with
        | some diskSize =>
          if diskSize > 104857600 then
            [["dd", "if=/dev/zero", "of=" ++ dev, "bs=1M",
              "seek=" ++ toString (diskSize / 1048576 - 100),
              "count=100", "conv=fsync"]]
          else []
        | none => [])
    ++ [["sgdisk", "--zap-all", dev]]
    ++ (if env.cmdOk ["sgdisk", "--zap-all", dev] then []
        else [["dd", "if=/dev/zero", "of=" ++ dev, "bs=512", "count=1",
               "conv=fsync"]])
    ++ [["partprobe", dev], ["udevadm", "settle"]]

/-- `RAIDManager._perform_disk_cleanup` as the ordered list of commands
it issues: the early return when nothing was detected, otherwise the
fixed sequence unmount → ZFS destroy → BTRFS unmount → mdadm stop →
LVM removal → full wipe. -/
def performDiskCleanup (env : CleanupEnv) (diskName : String)
    (info : DiskResidualInfo) : List (List String) :=
  if info.hasData = false then []
  else
    unmountTrace env info.mountedPartitions
      ++ zfsDestroyTrace info.zfsPools
      ++ btrfsCleanupTrace env diskName (!info.btrfsFilesystems.isEmpty)
      ++ mdadmStopTrace info.mdadmArrays
      ++ lvmRemoveTrace diskName info.lvmVolumes
      ++ wipeDiskCompletely env diskName

/-- SLOG partition size planned by `_setup_partitioned_cache`:
`min(int(total_size * 0.1), 32 * 1024**3)`, with the float product
modelled exactly (for a byte count, `int(x * 0.1)` is the tenth of `x`
truncated toward zero). -/
def slogSize (totalSize : ℤ) : ℤ :=
  min (intTruncDiv totalSize 10) (32 * 1024 ^ 3)

/-- The L2ARC partition receives the rest of the device
(`sgdisk -n 2:0:0`; the source reports `total_size - slog_size`). -/
def l2arcSize (totalSize : ℤ) : ℤ :=
  totalSize - slogSize totalSize

/-- External-world outcomes for the partitioned-cache path: destructive
confirmation, per-command success, and the poll oracle (`nodesReady i`:
both partition device nodes exist at the `i`-th one-second check). -/
structure CacheSetupEnv where
  confirmDestroy : Bool := true
  cmdOk : List String → Bool := fun _ => true
  nodesReady : ℕ → Bool

/-- `RAIDManager._prepare_cache_device`: (success, commands issued).
A device holding data requires confirmation; the unmounts are
individually best-effort, while a `wipefs`/`sgdisk` failure raises into
the handler that returns `False`. -/
def prepareCacheDeviceTrace (env : CacheSetupEnv) (device : Disk) :
    Bool × List (List String) :=
  if (device.hasPartitions || device.filesystemType.getD "" ≠ "")
      && !env.confirmDestroy then
    (false, [])
  else
    let umounts := device.mountPoints.map (fun mp => ["umount", mp])
    let wipefsCmd := ["wipefs", "-a", "/dev/" ++ device.name]
    if !env.cmdOk wipefsCmd then (false, umounts ++ [wipefsCmd])
    else
      let sgdiskCmd := ["sgdisk", "-Z", "/dev/" ++ device.name]
      if !env.cmdOk sgdiskCmd then (false, umounts ++ [wipefsCmd, sgdiskCmd])
      else (true, umounts ++ [wipefsCmd, sgdiskCmd])

/-- Run a command sequence through `run_command`, stopping at the first
failure (which raises `CalledProcessError` into the surrounding
handler): (all succeeded, commands actually issued). -/
def runSeq (env : CacheSetupEnv) : List (List String) → Bool × List (List String)
  | [] => (true, [])
  | c :: rest =>
    if env.cmdOk c then
      let r := runSeq env rest
      (r.1, c :: r.2)
    else (false, [c])

/-- `RAIDManager._setup_partitioned_cache` for an already selected
device: (reached the success message, commands issued).  The bounded
poll succeeds iff some check among the 10 one-second iterations sees
both partition nodes; on timeout the `raise` lands in the `except`
handler, so the two `zpool add` commands are never issued. -/
def setupPartitionedCache (env : CacheSetupEnv) (poolName : String)
    (device : Disk) : Bool × List (List String) :=
  if device.size < 4 * 1024 ^ 3 then (false, [])
  else
    let prep := prepareCacheDeviceTrace env device
    if !prep.1 then (false, prep.2)
    else
      let dev := "/dev/" ++ device.name
      let slog := slogSize device.size
      let partCmds : List (List String) :=
        [["sgdisk", "--zap-all", dev],
         ["sgdisk", "-n", "1:0:+" ++ toString (slog / 512), dev],
         ["sgdisk", "-n", "2:0:0", dev],
         ["sgdisk", "-c", "1:ZFS-SLOG", dev],
         ["sgdisk", "-c", "2:ZFS-L2ARC", dev],
         ["partprobe", dev],
         ["udevadm", "settle"]]
      let r := runSeq env partCmds
      if !r.1 then (false, prep.2 ++ r.2)
      else
        let slogPartition :=
          if pyStartsWith device.name "nvme" then device.name ++ "p1"
          else device.name ++ "1"
        let l2arcPartition :=
          if pyStartsWith device.name "nvme" then device.name ++ "p2"
          else device.name ++ "2"
        if (List.range 10).any env.nodesReady then
          let adds := runSeq env
            [["zpool", "add", poolName, "log", "/dev/" ++ slogPartition],
             ["zpool", "add", poolName, "cache", "/dev/" ++ l2arcPartition]]
          (adds.1, prep.2 ++ r.2 ++ adds.2)
        else (false, prep.2 ++ r.2)

/-! ## Concrete inputs used by witnesses and counterexamples -/

/-- A plain data disk with the given name and byte size. -/
def mkDisk (name : String) (size : ℤ) : Disk :=
  { name := name, size := size, model := "TestDisk", serial := "SN"
    sectorSize := 512 }

/-- Four 2 TiB disks. -/
def fourDisks2TB : List Disk :=
  [mkDisk "sda" (2 * 1024 ^ 4), mkDisk "sdb" (2 * 1024 ^ 4),
   mkDisk "sdc" (2 * 1024 ^ 4), mkDisk "sdd" (2 * 1024 ^ 4)]

/-- Three 2 TiB disks (one short of the raidz2 minimum). -/
def threeDisks2TB : List Disk :=
  [mkDisk "sda" (2 * 1024 ^ 4), mkDisk "sdb" (2 * 1024 ^ 4),
   mkDisk "sdc" (2 * 1024 ^ 4)]

/-- Five 1 TiB disks (an odd raid10 member count). -/
def fiveDisks1TB : List Disk :=
  [mkDisk "sda" (1024 ^ 4), mkDisk "sdb" (1024 ^ 4), mkDisk "sdc" (1024 ^ 4),
   mkDisk "sdd" (1024 ^ 4), mkDisk "sde" (1024 ^ 4)]

/-! ## C1 — undersized topologies -/

/-- C1 counterexample: the capacity computation does not reject an
under-sized disk set.  With three disks and raidz2 (whose minimum is 4)
`_calculate_raid_capacity` happily produces a full report, contradicting
"the capacity computation never produces a report for such an
under-sized disk set". -/
theorem capacity_undersized_counterexample :
    3 < minDisks RAIDType.raidz2 ∧
    calculateRaidCapacity RAIDType.raidz2 threeDisks2TB =
      { totalRaw := 6 * 1024 ^ 4, minDisk := 2 * 1024 ^ 4
        usable := 2 * 1024 ^ 4, tolerance := some 2
        efficiencyNum := some ((100 : ℚ) / 3) } ∧
    (calculateRaidCapacity RAIDType.raidz2 threeDisks2TB).usable ≠ 0 := by
  have hne : threeDisks2TB ≠ [] := by simp [threeDisks2TB]
  refine ⟨by decide, ?_, ?_⟩ <;> unfold calculateRaidCapacity <;>
    rw [if_neg hne] <;>
    norm_num [threeDisks2TB, mkDisk, totalRawSize, minDiskSize,
      CapacityCalc.mk.injEq]

/-- C1 (amended): the minimum disk count is enforced by the RAID-type
selection menus, which offer a topology only when its `disk_count` gate
holds — an under-sized topology can never be chosen, so no destructive
step is reached for one; the capacity computation itself performs no
validation. -/
theorem raid_selection_enforces_min_disks (diskCount : ℕ) (rt : RAIDType)
    (hpos : 1 ≤ diskCount)
    (hmem : rt ∈ zfsRaidOptions diskCount ∨ rt ∈ btrfsRaidOptions diskCount) :
    minDisks rt ≤ diskCount := by
  rcases hmem with h | h
  · unfold zfsRaidOptions at h
    split_ifs at h <;> simp_all [minDisks] <;>
      rcases h with h | h | h | h | h <;> simp_all [minDisks]
  · unfold btrfsRaidOptions at h
    split_ifs at h <;> simp_all [minDisks] <;>
      rcases h with h | h | h | h | h <;> simp_all [minDisks]

/-- C1 witness: raidz2 is offered at four disks, and indeed 4 ≥ its
minimum. -/
theorem raid_selection_enforces_min_disks_witness :
    (1 ≤ 4 ∧ RAIDType.raidz2 ∈ zfsRaidOptions 4) ∧
    minDisks RAIDType.raidz2 ≤ 4 :=
  ⟨⟨by decide, by decide⟩,
   raid_selection_enforces_min_disks 4 RAIDType.raidz2 (by decide)
     (Or.inl (by decide))⟩

/-! ## C3 — parity-k capacity -/

/-- C3: for every parity-k topology and every disk set with
n ≥ k + 2, the usable capacity is `min(size) * (n − k)` and the
tolerated-failure count is `k`. -/
theorem parity_capacity_formula (rt : RAIDType) (k : ℕ) (disks : List Disk)
    (hk : (rt = RAIDType.raidz1 ∧ k = 1) ∨ (rt = RAIDType.raidz2 ∧ k = 2) ∨
          (rt = RAIDType.raidz3 ∧ k = 3) ∨
          (rt = RAIDType.btrfs_raid5 ∧ k = 1) ∨
          (rt = RAIDType.btrfs_raid6 ∧ k = 2))
    (hn : k + 2 ≤ disks.length) :
    (calculateRaidCapacity rt disks).usable
        = minDiskSize disks * ((disks.length : ℤ) - (k : ℤ)) ∧
    (calculateRaidCapacity rt disks).tolerance = some k := by
  have hne : disks ≠ [] := by
    intro h
    rw [h] at hn
    simp at hn
  rcases hk with ⟨hrt, hk⟩ | ⟨hrt, hk⟩ | ⟨hrt, hk⟩ | ⟨hrt, hk⟩ | ⟨hrt, hk⟩ <;>
    subst hrt <;> subst hk <;> simp [calculateRaidCapacity, hne]

/-- C3 witness: four 2 TiB disks under raidz2 give usable = 4 TiB,
tolerance 2 and efficiency 50 %. -/
theorem parity_capacity_formula_witness :
    2 + 2 ≤ fourDisks2TB.length ∧
    (calculateRaidCapacity RAIDType.raidz2 fourDisks2TB).usable = 4 * 1024 ^ 4 ∧
    (calculateRaidCapacity RAIDType.raidz2 fourDisks2TB).tolerance = some 2 ∧
    (calculateRaidCapacity RAIDType.raidz2 fourDisks2TB).efficiencyNum
      = some 50 := by
  have h := parity_capacity_formula RAIDType.raidz2 2 fourDisks2TB
    (Or.inr (Or.inl ⟨rfl, rfl⟩)) (by decide)
  have hne : fourDisks2TB ≠ [] := by simp [fourDisks2TB]
  refine ⟨by decide, ?_, h.2, ?_⟩
  · rw [h.1]
    decide
  · unfold calculateRaidCapacity
    rw [if_neg hne]
    norm_num [fourDisks2TB]

/-! ## C4 — mirror / raid10 efficiency -/

/-- C4 counterexample: BTRFS RAID10 is accepted at five disks, where the
code reports a fixed 50 % efficiency although `floor(n/2)/n` is 40 %. -/
theorem raid10_efficiency_counterexample :
    RAIDType.btrfs_raid10 ∈ btrfsRaidOptions 5 ∧
    (calculateRaidCapacity RAIDType.btrfs_raid10 fiveDisks1TB).efficiencyNum
      = some 50 ∧
    (((5 / 2 : ℕ) : ℚ) / 5) * 100 = 40 ∧
    (calculateRaidCapacity RAIDType.btrfs_raid10 fiveDisks1TB).efficiencyNum
      ≠ some ((((5 / 2 : ℕ) : ℚ) / 5) * 100) := by
  have hne : fiveDisks1TB ≠ [] := by simp [fiveDisks1TB]
  have hl : (calculateRaidCapacity RAIDType.btrfs_raid10 fiveDisks1TB).efficiencyNum
      = some 50 := by
    unfold calculateRaidCapacity
    rw [if_neg hne]
  refine ⟨by decide, hl, by norm_num, ?_⟩
  rw [hl]
  norm_num

/-- C4 (amended): mirror/raid1 efficiency is exactly `floor(n/2)/n` (as
a percentage) for every accepted disk count, while raid10 efficiency is
reported as a fixed 50 %, which coincides with `floor(n/2)/n` only for
even member counts. -/
theorem mirror_raid10_efficiency (rt : RAIDType) (disks : List Disk)
    (hne : disks ≠ []) :
    ((rt = RAIDType.mirror ∨ rt = RAIDType.btrfs_raid1) →
      (calculateRaidCapacity rt disks).efficiencyNum
        = some ((((disks.length / 2 : ℕ) : ℚ) / (disks.length : ℚ)) * 100)) ∧
    (rt = RAIDType.btrfs_raid10 →
      (calculateRaidCapacity rt disks).efficiencyNum = some 50 ∧
      (disks.length % 2 = 0 →
        (50 : ℚ) = (((disks.length / 2 : ℕ) : ℚ) / (disks.length : ℚ)) * 100)) := by
  constructor
  · rintro (hrt | hrt) <;> subst hrt <;> simp [calculateRaidCapacity, hne]
  · rintro hrt
    subst hrt
    refine ⟨by simp [calculateRaidCapacity, hne], fun hmod => ?_⟩
    have hn0 : (disks.length : ℚ) ≠ 0 := by
      simpa using fun h => hne (List.length_eq_zero.mp h)
    have h2 : ((disks.length / 2 : ℕ) : ℚ) * 2 = (disks.length : ℚ) := by
      exact_mod_cast congrArg (Nat.cast : ℕ → ℚ)
        (Nat.div_mul_cancel (Nat.dvd_of_mod_eq_zero hmod))
    field_simp
    linarith

/-- C4 witness: at four disks, mirror efficiency is 2/4 = 50 % and the
raid10 fixed 50 % agrees with `floor(4/2)/4`. -/
theorem mirror_raid10_efficiency_witness :
    fourDisks2TB ≠ [] ∧
    (calculateRaidCapacity RAIDType.mirror fourDisks2TB).efficiencyNum
      = some 50 ∧
    (calculateRaidCapacity RAIDType.btrfs_raid10 fourDisks2TB).efficiencyNum
      = some 50 ∧
    (50 : ℚ) = (((fourDisks2TB.length / 2 : ℕ) : ℚ) / (fourDisks2TB.length : ℚ)) * 100 := by
  have h1 := mirror_raid10_efficiency RAIDType.mirror fourDisks2TB (by decide)
  have h2 := mirror_raid10_efficiency RAIDType.btrfs_raid10 fourDisks2TB
    (by decide)
  refine ⟨by decide, ?_, (h2.2 rfl).1, (h2.2 rfl).2 (by decide)⟩
  rw [h1.1 (Or.inl rfl)]
  norm_num [fourDisks2TB]

/-! ## C2 — static protection survives probe failure -/

theorem mem_setAdd_left {s : List String} {x y : String} (h : y ∈ s) :
    y ∈ setAdd s x := by
  unfold setAdd
  split <;> simp [h]

theorem mem_setAdd_self (s : List String) (x : String) : x ∈ setAdd s x := by
  unfold setAdd
  split <;> simp_all

theorem mem_foldl_setAdd (l : List String) (s : List String) (x : String)
    (h : x ∈ l ∨ x ∈ s) : x ∈ l.foldl setAdd s := by
  induction l generalizing s with
  | nil => simpa using h.resolve_left (by simp)
  | cons a t ih =>
    rcases h with h | h
    · rcases List.mem_cons.mp h with rfl | h
      · exact ih _ (Or.inr (mem_setAdd_self _ _))
      · exact ih _ (Or.inl h)
    · exact ih _ (Or.inr (mem_setAdd_left h))

theorem parseChildStep_isSystem (acc : Option String × List String × Bool)
    (child : LsblkChild) (h : acc.2.2 = true) :
    (parseChildStep acc child).2.2 = true := by
  unfold parseChildStep
  cases child.mountpoint with
  | none => simp_all
  | some mp =>
    simp_all only []
    split <;> simp_all

theorem foldl_parseChildStep_isSystem (children : List LsblkChild)
    (acc : Option String × List String × Bool) (h : acc.2.2 = true) :
    (children.foldl parseChildStep acc).2.2 = true := by
  induction children generalizing acc with
  | nil => simpa using h
  | cons c t ih => exact ih _ (parseChildStep_isSystem _ _ h)

/-- C2: whatever the probe outcomes — including total probe failure —
the protected set contains the whole static boot-media family plus the
primary NVMe system disk and is in particular non-empty, and every
inventoried disk with one of those names is classified `isSystem`. -/
theorem classifier_static_protection (env : SystemProbeEnv) :
    (∀ n ∈ staticProtected, n ∈ getSystemDisks env) ∧
    getSystemDisks env ≠ [] ∧
    (∀ dev : LsblkDevice, dev.name ∈ staticProtected →
      ∀ d : Disk, parseDiskInfo dev (getSystemDisks env) = some d →
        d.isSystem = true) := by
  have hsub : ∀ n ∈ staticProtected, n ∈ getSystemDisks env := by
    intro n hn
    unfold getSystemDisks
    cases env.rootProbe with
    | none =>
      have hfb : n ∈ fallbackProtected := by fin_cases hn <;> decide
      exact hfb
    | some rootOut => exact mem_foldl_setAdd _ _ _ (Or.inl hn)
  refine ⟨hsub, List.ne_nil_of_mem (hsub "mmcblk0" (by decide)), ?_⟩
  intro dev hname d hd
  unfold parseDiskInfo at hd
  by_cases hle : parseSize dev.size ≤ 0
  · rw [if_pos hle] at hd
    exact absurd hd (by simp)
  · rw [if_neg hle] at hd
    have hinit : (decide (dev.name ∈ getSystemDisks env)) = true := by
      simpa using hsub dev.name hname
    have := foldl_parseChildStep_isSystem dev.children
      (none, [], decide (dev.name ∈ getSystemDisks env)) hinit
    simp only [Option.some.injEq] at hd
    rw [← hd]
    simpa using this

/-- C2 witness: with every probe failing, the fallback set still
protects the family, and an mmcblk0 device parses as a system disk. -/
theorem classifier_static_protection_witness :
    ("mmcblk0" ∈ staticProtected ∧
      "mmcblk0" ∈ getSystemDisks ⟨none, fun _ => none, none⟩) ∧
    getSystemDisks ⟨none, fun _ => none, none⟩ ≠ [] ∧
    ∀ d : Disk,
      parseDiskInfo ⟨"mmcblk0", "59.6G", none, none, 512, "disk", []⟩
          (getSystemDisks ⟨none, fun _ => none, none⟩) = some d →
        d.isSystem = true := by
  have h := classifier_static_protection ⟨none, fun _ => none, none⟩
  exact ⟨⟨by decide, h.1 "mmcblk0" (by decide)⟩, h.2.1,
    fun d hd => h.2.2 _ (by decide) d hd⟩

/-! ## C10 — inventory only keeps positive-size disks -/

theorem parseDiskInfo_some_pos {dev : LsblkDevice} {systemDisks : List String}
    {d : Disk} (h : parseDiskInfo dev systemDisks = some d) : 0 < d.size := by
  unfold parseDiskInfo at h
  by_cases hle : parseSize dev.size ≤ 0
  · rw [if_pos hle] at h
    exact absurd h (by simp)
  · rw [if_neg hle] at h
    simp only [Option.some.injEq] at h
    rw [← h]
    simpa using lt_of_not_le hle

theorem detect_foldl_pos (devices : List LsblkDevice)
    (systemDisks : List String) (acc : List Disk)
    (hacc : ∀ d ∈ acc, 0 < d.size) :
    ∀ d ∈ devices.foldl (detectStep systemDisks) acc, 0 < d.size := by
  induction devices generalizing acc with
  | nil => simpa using hacc
  | cons dev t ih =>
    refine ih _ ?_
    intro d hd
    unfold detectStep at hd
    split at hd
    · cases hp : parseDiskInfo dev systemDisks with
      | none => rw [hp] at hd; exact hacc d hd
      | some p =>
        rw [hp] at hd
        rcases List.mem_append.mp hd with h | h
        · exact hacc d h
        · rw [List.mem_singleton.mp h]
          exact parseDiskInfo_some_pos hp
    · exact hacc d hd

/-- C10: every disk in the inventory has strictly positive size; a
device whose size string parses to a non-positive value is silently
dropped (`return None`) rather than reported. -/
theorem inventory_positive_size (devices : List LsblkDevice)
    (systemDisks : List String) :
    (∀ d ∈ detectDisks devices systemDisks, 0 < d.size) ∧
    (∀ dev : LsblkDevice, parseSize dev.size ≤ 0 →
      parseDiskInfo dev systemDisks = none) := by
  constructor
  · exact detect_foldl_pos devices systemDisks [] (by simp)
  · intro dev h
    unfold parseDiskInfo
    rw [if_pos h]

/-- C10 witness: a zero-size (`"0B"`) device is dropped, and the one
well-sized disk in the scan has positive size. -/
theorem inventory_positive_size_witness :
    (∀ d ∈ detectDisks
        [⟨"sdz", "0B", none, none, 512, "disk", []⟩,
         ⟨"sda", "10.9T", none, none, 512, "disk", []⟩] [],
      0 < d.size) ∧
    (parseSize "0B" ≤ 0 ∧
      parseDiskInfo (⟨"sdz", "0B", none, none, 512, "disk", []⟩ : LsblkDevice)
        [] = none) := by
  have h := inventory_positive_size
    [⟨"sdz", "0B", none, none, 512, "disk", []⟩,
     ⟨"sda", "10.9T", none, none, 512, "disk", []⟩] []
  refine ⟨h.1, by decide, h.2 _ (by decide)⟩

/-! ## C5 — partitioned cache sizes -/

/-- C5: for any cache device size meeting the 4 GiB minimum, the SLOG
partition gets `min(10 % of the device, 32 GiB)` — truncated tenth,
characterised by the two division bounds — and the L2ARC partition gets
exactly the rest. -/
theorem partitioned_cache_sizes (S : ℤ) (hmin : 4 * 1024 ^ 3 ≤ S) :
    slogSize S = min (intTruncDiv S 10) (32 * 1024 ^ 3) ∧
    10 * intTruncDiv S 10 ≤ S ∧ S < 10 * intTruncDiv S 10 + 10 ∧
    0 ≤ slogSize S ∧
    slogSize S + l2arcSize S = S := by
  have hS : 0 ≤ S := le_trans (by norm_num) hmin
  have htn : ((S.toNat : ℤ)) = S := Int.toNat_of_nonneg hS
  have hdiv : intTruncDiv S 10 = ((S.toNat / 10 : ℕ) : ℤ) := by
    unfold intTruncDiv
    rw [if_pos hS]
  have hmod := Nat.div_add_mod S.toNat 10
  have hlt : S.toNat % 10 < 10 := Nat.mod_lt _ (by norm_num)
  refine ⟨rfl, ?_, ?_, ?_, ?_⟩
  · rw [hdiv, ← htn]
    exact_mod_cast Nat.le.intro hmod
  · rw [hdiv, ← htn]
    exact_mod_cast by omega
  · unfold slogSize
    rw [hdiv]
    positivity
  · unfold l2arcSize
    ring

/-- C5 witness: a 1 TB (1000 GiB) device gets a 32 GiB SLOG and a
968 GiB L2ARC, which together span the device exactly. -/
theorem partitioned_cache_sizes_witness :
    4 * 1024 ^ 3 ≤ (1073741824000 : ℤ) ∧
    slogSize 1073741824000 = min (intTruncDiv 1073741824000 10) (32 * 1024 ^ 3) ∧
    slogSize 1073741824000 + l2arcSize 1073741824000 = 1073741824000 ∧
    slogSize 1073741824000 = 32 * 1024 ^ 3 ∧
    l2arcSize 1073741824000 = 968 * 1024 ^ 3 := by
  have h := partitioned_cache_sizes 1073741824000 (by decide)
  exact ⟨by decide, h.1, h.2.2.2.2, by decide, by decide⟩

/-! ## C7 — kernel-rescan timeout attaches nothing -/

theorem mem_runSeq {env : CacheSetupEnv} {l : List (List String)}
    {c : List String} (h : c ∈ (runSeq env l).2) : c ∈ l := by
  induction l with
  | nil => simp [runSeq] at h
  | cons a t ih =>
    unfold runSeq at h
    split at h
    · simp only [List.mem_cons] at h
      rcases h with rfl | h
      · exact List.mem_cons_self _ _
      · exact List.mem_cons_of_mem _ (ih h)
    · simp only [List.mem_singleton] at h
      rw [h]
      exact List.mem_cons_self _ _

theorem take_two_ne_of_head {c : List String} (h : c.head? ≠ some "zpool") :
    c.take 2 ≠ ["zpool", "add"] := by
  intro hc
  apply h
  cases c with
  | nil => simp at hc
  | cons a t =>
    simp only [List.take_succ_cons, List.cons.injEq] at hc
    simp [hc.1]

theorem prepare_no_zpool (env : CacheSetupEnv) (device : Disk) :
    ∀ c ∈ (prepareCacheDeviceTrace env device).2, c.head? ≠ some "zpool" := by
  intro c hc
  unfold prepareCacheDeviceTrace at hc
  have humount : ∀ x ∈ device.mountPoints.map (fun mp => ["umount", mp]),
      x.head? ≠ (some "zpool" : Option String) := by
    intro x hx
    rcases List.mem_map.mp hx with ⟨mp, _, rfl⟩
    simp
  split at hc
  · simp at hc
  · dsimp only at hc
    split at hc
    · rcases List.mem_append.mp hc with h | h
      · exact humount c h
      · rw [List.mem_singleton.mp h]
        simp
    · split at hc
      · rcases List.mem_append.mp hc with h | h
        · exact humount c h
        · rcases List.mem_cons.mp h with rfl | h
          · simp
          · rw [List.mem_singleton.mp h]
            simp
      · rcases List.mem_append.mp hc with h | h
        · exact humount c h
        · rcases List.mem_cons.mp h with rfl | h
          · simp
          · rw [List.mem_singleton.mp h]
            simp

/-- C7: if neither partition device node appears during any of the 10
one-second polls, the partitioned-cache operation fails and no
`zpool add` — neither for the log nor for the cache partition — is ever
issued. -/
theorem partitioned_cache_timeout_no_attach (env : CacheSetupEnv)
    (poolName : String) (device : Disk)
    (htimeout : ∀ i < 10, env.nodesReady i = false) :
    (setupPartitionedCache env poolName device).1 = false ∧
    ∀ c ∈ (setupPartitionedCache env poolName device).2,
      c.take 2 ≠ ["zpool", "add"] := by
  have hany : (List.range 10).any env.nodesReady = false := by
    rw [List.any_eq_false]
    intro i hi
    simp [htimeout i (List.mem_range.mp hi)]
  have hprep := prepare_no_zpool env device
  unfold setupPartitionedCache
  simp only [hany, Bool.false_eq_true, if_false]
  split
  · exact ⟨rfl, by simp⟩
  · split
    · exact ⟨rfl, fun c hc => take_two_ne_of_head (hprep c hc)⟩
    · split
      · refine ⟨rfl, fun c hc => take_two_ne_of_head ?_⟩
        rcases List.mem_append.mp hc with h | h
        · exact hprep c h
        · have h7 := mem_runSeq h
          simp only [List.mem_cons, List.not_mem_nil, or_false] at h7
          rcases h7 with rfl | rfl | rfl | rfl | rfl | rfl | rfl <;> simp
      · refine ⟨rfl, fun c hc => take_two_ne_of_head ?_⟩
        rcases List.mem_append.mp hc with h | h
        · exact hprep c h
        · have h7 := mem_runSeq h
          simp only [List.mem_cons, List.not_mem_nil, or_false] at h7
          rcases h7 with rfl | rfl | rfl | rfl | rfl | rfl | rfl <;> simp

/-- C7 witness: a clean 1 TiB data disk, all commands succeeding but the
partition nodes never appearing — the operation fails with no
`zpool add` in its trace. -/
theorem partitioned_cache_timeout_no_attach_witness :
    (∀ i < 10,
      (CacheSetupEnv.mk true (fun _ => true) (fun _ => false)).nodesReady i
        = false) ∧
    (setupPartitionedCache
        (CacheSetupEnv.mk true (fun _ => true) (fun _ => false)) "tank"
        (mkDisk "sdb" (1024 ^ 4))).1 = false ∧
    ∀ c ∈ (setupPartitionedCache
        (CacheSetupEnv.mk true (fun _ => true) (fun _ => false)) "tank"
        (mkDisk "sdb" (1024 ^ 4))).2,
      c.take 2 ≠ ["zpool", "add"] := by
  have h := partitioned_cache_timeout_no_attach
    (CacheSetupEnv.mk true (fun _ => true) (fun _ => false)) "tank"
    (mkDisk "sdb" (1024 ^ 4)) (fun _ _ => rfl)
  exact ⟨fun _ _ => rfl, h.1, h.2⟩

/-! ## C6 — unmount precedes every destroy/wipe -/

/-- Commands that destroy or wipe state: pool destroy, array stop,
volume-group removal (deactivate / reduce / label removal), and the
wipe sub-commands (labelclear, superblock zero, wipefs, dd, sgdisk). -/
def destructiveHead (c : List String) : Bool :=
  c.take 2 = ["zpool", "destroy"] || c.take 2 = ["mdadm", "--stop"]
    || c.head? = some "vgchange" || c.head? = some "vgreduce"
    || c.head? = some "pvremove"
    || c.take 2 = ["zpool", "labelclear"]
    || c.take 2 = ["mdadm", "--zero-superblock"]
    || c.head? = some "wipefs" || c.head? = some "dd"
    || c.head? = some "sgdisk"

theorem unmountCmds_head (env : CleanupEnv) (entry : String) :
    ∀ c ∈ unmountCmds env entry, c.head? = some "umount" := by
  intro c hc
  unfold unmountCmds at hc
  dsimp only at hc
  rcases List.mem_append.mp hc with h | h
  · rw [List.mem_singleton.mp h]
    rfl
  · split at h
    · simp at h
    · rw [List.mem_singleton.mp h]
      rfl

theorem unmountTrace_head_aux (env : CleanupEnv) (mps : List String)
    (acc : List (List String))
    (hacc : ∀ c ∈ acc, c.head? = some "umount") :
    ∀ c ∈ mps.foldl (fun acc e => acc ++ unmountCmds env e) acc,
      c.head? = some "umount" := by
  induction mps generalizing acc with
  | nil => simpa using hacc
  | cons e t ih =>
    refine ih _ ?_
    intro c hc
    rcases List.mem_append.mp hc with h | h
    · exact hacc c h
    · exact unmountCmds_head env e c h

theorem unmountTrace_head (env : CleanupEnv) (mps : List String) :
    ∀ c ∈ unmountTrace env mps, c.head? = some "umount" :=
  unmountTrace_head_aux env mps [] (by simp)

theorem destructiveHead_umount {c : List String}
    (h : c.head? = some "umount") : destructiveHead c = false := by
  cases c with
  | nil => simp at h
  | cons a t =>
    simp only [List.head?_cons, Option.some.injEq] at h
    subst h
    simp [destructiveHead, List.take_succ_cons]

theorem destructive_index_ge (u r : List (List String))
    (hu : ∀ c ∈ u, c.head? = some "umount") :
    ∀ i, (hi : i < (u ++ r).length) →
      destructiveHead ((u ++ r).get ⟨i, hi⟩) = true → u.length ≤ i := by
  intro i hi hdest
  by_contra hlt
  push_neg at hlt
  rw [List.get_append i hlt] at hdest
  rw [destructiveHead_umount (hu _ (List.get_mem _ _ _))] at hdest
  exact Bool.false_ne_true hdest


/-- C6: the teardown for a disk is the fixed sequence
unmount → ZFS destroy → BTRFS unmount → mdadm stop → LVM removal →
full wipe; the leading block consists exactly of the unmounts of the
disk's mounted partitions, so every pool-destroy / array-stop /
VG-removal / wipe command sits at an index at or beyond the whole
unmount block. -/
theorem cleanup_unmount_before_destroy (env : CleanupEnv)
    (diskName : String) (info : DiskResidualInfo)
    (hHas : info.hasData = true) :
    performDiskCleanup env diskName info
      = unmountTrace env info.mountedPartitions
        ++ (zfsDestroyTrace info.zfsPools
            ++ btrfsCleanupTrace env diskName (!info.btrfsFilesystems.isEmpty)
            ++ mdadmStopTrace info.mdadmArrays
            ++ lvmRemoveTrace diskName info.lvmVolumes
            ++ wipeDiskCompletely env diskName) ∧
    (∀ c ∈ unmountTrace env info.mountedPartitions,
      c.head? = some "umount") ∧
    ∀ i, (hi : i < (performDiskCleanup env diskName info).length) →
      destructiveHead ((performDiskCleanup env diskName info).get ⟨i, hi⟩)
          = true →
      (unmountTrace env info.mountedPartitions).length ≤ i := by
  have ht : performDiskCleanup env diskName info
      = unmountTrace env info.mountedPartitions
        ++ (zfsDestroyTrace info.zfsPools
            ++ btrfsCleanupTrace env diskName (!info.btrfsFilesystems.isEmpty)
            ++ mdadmStopTrace info.mdadmArrays
            ++ lvmRemoveTrace diskName info.lvmVolumes
            ++ wipeDiskCompletely env diskName) := by
    unfold performDiskCleanup
    rw [if_neg (by simp [hHas])]
    simp [List.append_assoc]
  refine ⟨ht, unmountTrace_head env info.mountedPartitions, ?_⟩
  intro i hi hdest
  rw [List.get_of_eq ht ⟨i, hi⟩] at hdest
  exact destructive_index_ge _ _
    (unmountTrace_head env info.mountedPartitions) i _ hdest

/-- C6 witness: a disk with one mounted partition, one pool and one
mdadm array — the trace opens with its unmount block and every
destructive command comes later. -/
theorem cleanup_unmount_before_destroy_witness :
    (DiskResidualInfo.mk true [] ["tank"] [] ["md0"] []
        ["/dev/sdb1 en /mnt/data"] ["sdb1"]).hasData = true ∧
    (∀ c ∈ unmountTrace ⟨fun _ => true, none, none⟩
        (DiskResidualInfo.mk true [] ["tank"] [] ["md0"] []
          ["/dev/sdb1 en /mnt/data"] ["sdb1"]).mountedPartitions,
      c.head? = some "umount") ∧
    ∀ i, (hi : i < (performDiskCleanup ⟨fun _ => true, none, none⟩ "sdb"
        (DiskResidualInfo.mk true [] ["tank"] [] ["md0"] []
          ["/dev/sdb1 en /mnt/data"] ["sdb1"])).length) →
      destructiveHead ((performDiskCleanup ⟨fun _ => true, none, none⟩ "sdb"
          (DiskResidualInfo.mk true [] ["tank"] [] ["md0"] []
            ["/dev/sdb1 en /mnt/data"] ["sdb1"])).get ⟨i, hi⟩) = true →
      (unmountTrace ⟨fun _ => true, none, none⟩
        (DiskResidualInfo.mk true [] ["tank"] [] ["md0"] []
          ["/dev/sdb1 en /mnt/data"] ["sdb1"]).mountedPartitions).length ≤ i := by
  have h := cleanup_unmount_before_destroy ⟨fun _ => true, none, none⟩ "sdb"
    (DiskResidualInfo.mk true [] ["tank"] [] ["md0"] []
      ["/dev/sdb1 en /mnt/data"] ["sdb1"]) rfl
  exact ⟨rfl, h.2.1, h.2.2⟩

/-! ## C8 — hasData iff some membership collection is non-empty -/

/-- The `DiskResidualState` invariant of the specification. -/
def residualInvariant (i : DiskResidualInfo) : Prop :=
  i.hasData = true ↔
    (i.partitions ≠ [] ∨ i.mountedPartitions ≠ [] ∨ i.zfsPools ≠ [] ∨
     i.btrfsFilesystems ≠ [] ∨ i.mdadmArrays ≠ [] ∨ i.lvmVolumes ≠ [])

theorem partitionStep_inv (d : String) (i : DiskResidualInfo) (line : String)
    (h : residualInvariant i) : residualInvariant (partitionStep d i line) := by
  unfold partitionStep
  split
  · split
    · exact h
    · dsimp only
      split
      · split
        · simp [residualInvariant]
        · split <;> simp [residualInvariant]
      · exact h
  · exact h

theorem zfsPoolStep_inv (d : String) (st : DiskResidualInfo × String)
    (line : String) (h : residualInvariant st.1) :
    residualInvariant (zfsPoolStep d st line).1 := by
  unfold zfsPoolStep
  dsimp only
  split
  · exact h
  · split
    · split
      · exact h
      · simp [residualInvariant]
    · exact h

theorem btrfsStep_some_inv (dp : String)
    (st : DiskResidualInfo × Option String × String) (line : String)
    (st' : DiskResidualInfo × Option String × String)
    (hstep : btrfsStep dp (some st) line = some st')
    (h : residualInvariant st.1) : residualInvariant st'.1 := by
  obtain ⟨info, uuid, label⟩ := st
  simp only [btrfsStep] at hstep
  split at hstep
  · simp only [Option.some.injEq] at hstep
    subst hstep
    exact h
  · split at hstep
    · simp only [Option.some.injEq] at hstep
      subst hstep
      exact h
    · split at hstep
      · split at hstep
        · exact absurd hstep (by simp)
        · simp only [Option.some.injEq] at hstep
          subst hstep
          simp [residualInvariant]
      · simp only [Option.some.injEq] at hstep
        subst hstep
        exact h

theorem mdadmLineStep_inv (d : String) (i : DiskResidualInfo) (line : String)
    (h : residualInvariant i) : residualInvariant (mdadmLineStep d i line) := by
  unfold mdadmLineStep
  split
  · simp [residualInvariant]
  · exact h

theorem pvsStep_inv (dp : String) (i : DiskResidualInfo) (line : String)
    (h : residualInvariant i) : residualInvariant (pvsStep dp i line) := by
  unfold pvsStep
  split
  · split
    · simp [residualInvariant]
    · exact h
  · exact h

theorem foldl_partitionStep_inv (d : String) (lines : List String) :
    ∀ i, residualInvariant i →
      residualInvariant (lines.foldl (partitionStep d) i) := by
  induction lines with
  | nil => intro i h; exact h
  | cons l t ih => intro i h; exact ih _ (partitionStep_inv d i l h)

theorem foldl_zfsPoolStep_inv (d : String) (lines : List String) :
    ∀ st : DiskResidualInfo × String, residualInvariant st.1 →
      residualInvariant ((lines.foldl (zfsPoolStep d) st).1) := by
  induction lines with
  | nil => intro st h; exact h
  | cons l t ih => intro st h; exact ih _ (zfsPoolStep_inv d st l h)

theorem foldl_btrfsStep_none (dp : String) (lines : List String) :
    lines.foldl (btrfsStep dp) none = none := by
  induction lines with
  | nil => rfl
  | cons l t ih => exact ih

theorem foldl_btrfsStep_inv (dp : String) (lines : List String) :
    ∀ st st', residualInvariant st.1 →
      lines.foldl (btrfsStep dp) (some st) = some st' →
      residualInvariant st'.1 := by
  induction lines with
  | nil =>
    intro st st' h he
    simp only [List.foldl_nil, Option.some.injEq] at he
    rw [← he]
    exact h
  | cons l t ih =>
    intro st st' h he
    simp only [List.foldl_cons] at he
    cases hstep : btrfsStep dp (some st) l with
    | none =>
      rw [hstep, foldl_btrfsStep_none] at he
      exact absurd he (by simp)
    | some st1 =>
      rw [hstep] at he
      exact ih st1 st' (btrfsStep_some_inv dp st l st1 hstep h) he

theorem foldl_mdadmLineStep_inv (d : String) (lines : List String) :
    ∀ i, residualInvariant i →
      residualInvariant (lines.foldl (mdadmLineStep d) i) := by
  induction lines with
  | nil => intro i h; exact h
  | cons l t ih => intro i h; exact ih _ (mdadmLineStep_inv d i l h)

theorem foldl_pvsStep_inv (dp : String) (lines : List String) :
    ∀ i, residualInvariant i →
      residualInvariant (lines.foldl (pvsStep dp) i) := by
  induction lines with
  | nil => intro i h; exact h
  | cons l t ih => intro i h; exact ih _ (pvsStep_inv dp i l h)

theorem phasePartitions_inv (d : String) (probe : Option (List String))
    (i : DiskResidualInfo) (h : residualInvariant i) :
    residualInvariant (phasePartitions d probe i) := by
  cases probe with
  | none => exact h
  | some lines => exact foldl_partitionStep_inv d lines i h

theorem phaseZfs_inv (d : String) (probe : Option (List String))
    (i : DiskResidualInfo) (h : residualInvariant i) :
    residualInvariant (phaseZfs d probe i) := by
  cases probe with
  | none => exact h
  | some lines => exact foldl_zfsPoolStep_inv d lines (i, "") h

theorem phaseBtrfs_inv (dp : String) (probe : Option (List String))
    (i i3 : DiskResidualInfo) (hph : phaseBtrfs dp probe i = some i3)
    (h : residualInvariant i) : residualInvariant i3 := by
  cases probe with
  | none =>
    simp only [phaseBtrfs, Option.some.injEq] at hph
    rw [← hph]
    exact h
  | some lines =>
    simp only [phaseBtrfs] at hph
    cases hf : lines.foldl (btrfsStep dp) (some (i, none, "")) with
    | none => rw [hf] at hph; simp at hph
    | some st' =>
      rw [hf] at hph
      simp only [Option.map_some', Option.some.injEq] at hph
      rw [← hph]
      exact foldl_btrfsStep_inv dp lines (i, none, "") st' h hf

theorem phaseMdadm_inv (d : String) (probe : Option (List String))
    (i : DiskResidualInfo) (h : residualInvariant i) :
    residualInvariant (phaseMdadm d probe i) := by
  cases probe with
  | none => exact h
  | some lines => exact foldl_mdadmLineStep_inv d lines i h

theorem phasePvs_inv (dp : String) (probe : Option (List String))
    (i : DiskResidualInfo) (h : residualInvariant i) :
    residualInvariant (phasePvs dp probe i) := by
  cases probe with
  | none => exact h
  | some lines => exact foldl_pvsStep_inv dp lines i h

/-- Probe results in which the disk appears in exactly one active mdadm
array line and nowhere else. -/
def mdadmOnlyProbes : AnalyzeProbes :=
  { lsblkLines := some ["sdb"], zpoolStatusLines := some []
    btrfsShowLines := some []
    mdstatLines := some ["md0 : active raid1 sdb[1] sdc[0]"]
    pvsLines := some [] }

/-- The analysis result for `mdadmOnlyProbes`. -/
def mdadmOnlyResult : DiskResidualInfo :=
  { hasData := true, details := ["Miembro del array MDADM md0"]
    zfsPools := [], btrfsFilesystems := [], mdadmArrays := ["md0"]
    lvmVolumes := [], mountedPartitions := [], partitions := [] }

/-- C8: whenever the analyzer produces a result, `hasData` is `true`
exactly when at least one membership collection is non-empty; in
particular a disk appearing in exactly one active mdadm line and nowhere
else yields `hasData = true` with `["md0"]` as the only non-empty
collection. -/
theorem analyzer_hasData_iff :
    (∀ (diskName : String) (probes : AnalyzeProbes) (res : DiskResidualInfo),
      analyzeDiskConfiguration diskName probes = some res →
      (res.hasData = true ↔
        (res.partitions ≠ [] ∨ res.mountedPartitions ≠ [] ∨
         res.zfsPools ≠ [] ∨ res.btrfsFilesystems ≠ [] ∨
         res.mdadmArrays ≠ [] ∨ res.lvmVolumes ≠ []))) ∧
    analyzeDiskConfiguration "sdb" mdadmOnlyProbes = some mdadmOnlyResult := by
  constructor
  · intro dn probes res h
    unfold analyzeDiskConfiguration at h
    have hempty : residualInvariant emptyResidualInfo := by
      simp [residualInvariant, emptyResidualInfo]
    have h1 := phasePartitions_inv dn probes.lsblkLines emptyResidualInfo hempty
    have h2 := phaseZfs_inv dn probes.zpoolStatusLines _ h1
    cases hb : phaseBtrfs ("/dev/" ++ dn) probes.btrfsShowLines
        (phaseZfs dn probes.zpoolStatusLines
          (phasePartitions dn probes.lsblkLines emptyResidualInfo)) with
    | none => rw [hb] at h; simp at h
    | some i3 =>
      rw [hb] at h
      have h3 := phaseBtrfs_inv ("/dev/" ++ dn) probes.btrfsShowLines _ i3 hb h2
      have h4 := phaseMdadm_inv dn probes.mdstatLines i3 h3
      have h5 := phasePvs_inv ("/dev/" ++ dn) probes.pvsLines _ h4
      simp only [Option.some.injEq] at h
      rw [← h]
      exact h5
  · decide

/-- C8 witness: at the one-mdadm-line probe set the analyzer yields a
result whose `hasData` is `true` iff some collection is non-empty. -/
theorem analyzer_hasData_iff_witness :
    analyzeDiskConfiguration "sdb" mdadmOnlyProbes = some mdadmOnlyResult ∧
    (mdadmOnlyResult.hasData = true ↔
      (mdadmOnlyResult.partitions ≠ [] ∨
       mdadmOnlyResult.mountedPartitions ≠ [] ∨
       mdadmOnlyResult.zfsPools ≠ [] ∨
       mdadmOnlyResult.btrfsFilesystems ≠ [] ∨
       mdadmOnlyResult.mdadmArrays ≠ [] ∨
       mdadmOnlyResult.lvmVolumes ≠ [])) :=
  ⟨analyzer_hasData_iff.2,
   analyzer_hasData_iff.1 "sdb" mdadmOnlyProbes mdadmOnlyResult
     analyzer_hasData_iff.2⟩

/-! ## C9 — size-string parsing -/

/-- The ten decimal digit characters. -/
def digitChars : List Char :=
  ['0', '1', '2', '3', '4', '5', '6', '7', '8', '9']

/-- The six binary-suffix characters, in power order
(`B` = 1024^0 … `P` = 1024^5). -/
def suffixChars : List Char := ['B', 'K', 'M', 'G', 'T', 'P']

theorem digit_norm {c : Char} (h : c ∈ digitChars) : normChar c = c := by
  fin_cases h <;> decide

theorem digit_not_ws {c : Char} (h : c ∈ digitChars) :
    c.isWhitespace = false := by
  fin_cases h <;> decide

theorem digit_isDigit {c : Char} (h : c ∈ digitChars) : c.isDigit = true := by
  fin_cases h <;> decide

theorem digit_ne_dot {c : Char} (h : c ∈ digitChars) : c ≠ '.' := by
  fin_cases h <;> decide

theorem digit_ne_dash {c : Char} (h : c ∈ digitChars) : c ≠ '-' := by
  fin_cases h <;> decide

theorem digit_ne_plus {c : Char} (h : c ∈ digitChars) : c ≠ '+' := by
  fin_cases h <;> decide

theorem digit_find_none {c : Char} (h : c ∈ digitChars) :
    sizeMultipliers.find? (fun p => p.1 = c) = none := by
  fin_cases h <;> decide

theorem natBitsAux_zero (fuel : ℕ) : natBitsAux fuel 0 = 0 := by
  cases fuel <;> rfl

theorem natBitsAux_spec (fuel : ℕ) : ∀ n, n ≤ fuel → 1 ≤ n →
    2 ^ (natBitsAux fuel n - 1) ≤ n ∧ n < 2 ^ natBitsAux fuel n := by
  induction fuel with
  | zero => intro n hle h1; omega
  | succ fuel ih =>
    intro n hle h1
    have hunf : natBitsAux (fuel + 1) n = natBitsAux fuel (n / 2) + 1 := by
      show (if n = 0 then 0 else natBitsAux fuel (n / 2) + 1) = _
      rw [if_neg (by omega)]
    rw [hunf]
    by_cases h2 : n = 1
    · subst h2
      rw [show (1 : ℕ) / 2 = 0 from rfl, natBitsAux_zero]
      norm_num
    · have hhalf : n / 2 ≤ fuel := by omega
      have h1h : 1 ≤ n / 2 := by omega
      obtain ⟨hlo, hhi⟩ := ih (n / 2) hhalf h1h
      set k := natBitsAux fuel (n / 2) with hkdef
      have hk1 : 1 ≤ k := by
        by_contra hk
        push_neg at hk
        have hk0 : k = 0 := by omega
        rw [hk0] at hhi
        norm_num at hhi
        omega
      have e1 : 2 ^ (k - 1) * 2 = 2 ^ k := by
        rw [← pow_succ]
        congr 1
        omega
      have e2 : 2 ^ k * 2 = 2 ^ (k + 1) := by
        rw [← pow_succ]
      constructor
      · have hgoal : k + 1 - 1 = k := by omega
        rw [hgoal]
        omega
      · omega

theorem bitLen_bounds (n : ℕ) (h : 1 ≤ n) :
    2 ^ (bitLen n - 1) ≤ n ∧ n < 2 ^ bitLen n :=
  natBitsAux_spec n n le_rfl h

theorem bitLen_pos (n : ℕ) (h : 1 ≤ n) : 1 ≤ bitLen n := by
  obtain ⟨_, hhi⟩ := bitLen_bounds n h
  rcases Nat.eq_zero_or_pos (bitLen n) with h0 | hpos
  · rw [h0] at hhi
    norm_num at hhi
    omega
  · exact hpos

theorem bitLen_le (n k : ℕ) (h : n < 2 ^ k) : bitLen n ≤ k := by
  rcases Nat.eq_zero_or_pos n with rfl | h1
  · show natBitsAux 0 0 ≤ k
    norm_num [natBitsAux]
  · obtain ⟨hlo, _⟩ := bitLen_bounds n h1
    by_contra hc
    push_neg at hc
    have : (2 : ℕ) ^ k ≤ 2 ^ (bitLen n - 1) :=
      Nat.pow_le_pow_right (by norm_num) (by omega)
    omega

/-- Rounding an integer below `2 ^ 53` to a double is exact: the
significand is the integer shifted into `[2 ^ 52, 2 ^ 53)`. -/
theorem roundPos_exact (n : ℕ) (h1 : 1 ≤ n) (h53 : n < 2 ^ 53) :
    roundPos n 1 = (n * 2 ^ (53 - bitLen n), (bitLen n : ℤ) - 1) := by
  obtain ⟨hlo, hhi⟩ := bitLen_bounds n h1
  have hL1 : 1 ≤ bitLen n := bitLen_pos n h1
  have hL53 : bitLen n ≤ 53 := bitLen_le n 53 h53
  have hb : (0 : ℤ) ≤ (bitLen n : ℤ) - 1 := by omega
  have htn : ((bitLen n : ℤ) - 1).toNat = bitLen n - 1 := by omega
  have h1b : pow2LE n 1 ((bitLen n : ℤ) - 1) = true := by
    unfold pow2LE
    rw [if_pos hb, htn]
    exact decide_eq_true (by rw [one_mul]; exact hlo)
  have hexp : posExp n 1 = (bitLen n : ℤ) - 1 := by
    unfold posExp
    rw [show bitLen 1 = 1 from rfl]
    dsimp only
    rw [Nat.cast_one, if_pos h1b]
  unfold roundPos
  rw [hexp]
  dsimp only
  have hs : (0 : ℤ) ≤ 52 - ((bitLen n : ℤ) - 1) := by omega
  rw [if_pos hs]
  dsimp only
  have hstn : ((52 : ℤ) - ((bitLen n : ℤ) - 1)).toNat = 53 - bitLen n := by
    omega
  rw [hstn, Nat.div_one, Nat.mod_one]
  have hlt : n * 2 ^ (53 - bitLen n) < 2 ^ 53 := by
    calc n * 2 ^ (53 - bitLen n)
        < 2 ^ bitLen n * 2 ^ (53 - bitLen n) :=
          mul_lt_mul_of_pos_right hhi (pow_pos (by norm_num) _)
      _ = 2 ^ 53 := by
          rw [← pow_add]
          congr 1
          omega
  rw [if_pos (by norm_num : 2 * 0 < 1), if_neg (Nat.ne_of_lt hlt)]

/-- On integer values below `2 ^ 53`, `int(float(n) * 2 ^ tens)` is the
exact product `n * 2 ^ tens` (the rounding is exact and the scaling only
shifts the exponent). -/
theorem pyFloatScaledTrunc_nat_exact (n : ℕ) (h53 : n < 2 ^ 53) (tens : ℕ)
    (htens : tens ≤ 50) :
    pyFloatScaledTrunc ((n : ℤ), 0) tens = some ((n : ℤ) * 2 ^ tens) := by
  rcases Nat.eq_zero_or_pos n with rfl | h1
  · simp [pyFloatScaledTrunc]
  · have hne : ((n : ℤ)) ≠ 0 := by exact_mod_cast h1.ne'
    have hL1 : 1 ≤ bitLen n := bitLen_pos n h1
    have hL53 : bitLen n ≤ 53 := bitLen_le n 53 h53
    unfold pyFloatScaledTrunc
    rw [if_neg hne]
    dsimp only
    rw [pow_zero, Int.natAbs_ofNat, roundPos_exact n h1 h53]
    dsimp only
    rw [if_neg (show ¬ (1024 : ℤ) ≤ ((bitLen n : ℤ) - 1) + tens by omega)]
    by_cases hE : (0 : ℤ) ≤ (bitLen n : ℤ) - 1 - 52 + tens
    · rw [if_pos hE]
      have htn2 : ((bitLen n : ℤ) - 1 - 52 + tens).toNat
          = tens + bitLen n - 53 := by omega
      rw [htn2]
      have hmag : n * 2 ^ (53 - bitLen n) * 2 ^ (tens + bitLen n - 53)
          = n * 2 ^ tens := by
        rw [mul_assoc, ← pow_add]
        congr 2
        omega
      rw [hmag, if_neg (show ¬ ((n : ℤ)) < 0 by omega)]
      congr 1
      push_cast
      ring
    · rw [if_neg hE]
      have htn3 : (-((bitLen n : ℤ) - 1 - 52 + tens)).toNat
          = 53 - bitLen n - tens := by omega
      rw [htn3]
      have hmag : n * 2 ^ (53 - bitLen n) / 2 ^ (53 - bitLen n - tens)
          = n * 2 ^ tens := by
        have hsplit : (2 : ℕ) ^ (53 - bitLen n)
            = 2 ^ tens * 2 ^ (53 - bitLen n - tens) := by
          rw [← pow_add]
          congr 1
          omega
        rw [hsplit, ← mul_assoc]
        exact Nat.mul_div_cancel _ (pow_pos (show (0 : ℕ) < 2 by norm_num) _)
      rw [hmag, if_neg (show ¬ ((n : ℤ)) < 0 by omega)]
      congr 1
      push_cast
      ring

theorem dropWhile_eq_self_of_not {l : List Char}
    (h : ∀ c ∈ l, c.isWhitespace = false) :
    l.dropWhile Char.isWhitespace = l := by
  cases l with
  | nil => rfl
  | cons a t =>
    rw [List.dropWhile_cons]
    simp [h a (List.mem_cons_self a t)]

theorem pyStrip_eq_self {l : List Char}
    (h : ∀ c ∈ l, c.isWhitespace = false) : pyStrip l = l := by
  unfold pyStrip
  rw [dropWhile_eq_self_of_not h,
    dropWhile_eq_self_of_not (fun c hc => h c (List.mem_reverse.mp hc)),
    List.reverse_reverse]

theorem map_normChar_digits {l : List Char}
    (h : ∀ c ∈ l, c ∈ digitChars) : l.map normChar = l := by
  induction l with
  | nil => rfl
  | cons a t ih =>
    rw [List.map_cons, digit_norm (h a (List.mem_cons_self a t)),
      ih (fun c hc => h c (List.mem_cons_of_mem a hc))]

theorem takeWhile_append_all {p : Char → Bool} {l r : List Char}
    (h : ∀ c ∈ l, p c = true) :
    (l ++ r).takeWhile p = l ++ r.takeWhile p := by
  induction l with
  | nil => rfl
  | cons a t ih =>
    simp [List.takeWhile_cons, h a (List.mem_cons_self a t),
      ih (fun c hc => h c (List.mem_cons_of_mem a hc))]

theorem dropWhile_append_all {p : Char → Bool} {l r : List Char}
    (h : ∀ c ∈ l, p c = true) :
    (l ++ r).dropWhile p = r.dropWhile p := by
  induction l with
  | nil => rfl
  | cons a t ih =>
    simp [List.dropWhile_cons, h a (List.mem_cons_self a t),
      ih (fun c hc => h c (List.mem_cons_of_mem a hc))]

theorem takeWhile_all {p : Char → Bool} {l : List Char}
    (h : ∀ c ∈ l, p c = true) : l.takeWhile p = l := by
  induction l with
  | nil => rfl
  | cons a t ih =>
    simp [List.takeWhile_cons, h a (List.mem_cons_self a t),
      ih (fun c hc => h c (List.mem_cons_of_mem a hc))]

theorem dropWhile_all {p : Char → Bool} {l : List Char}
    (h : ∀ c ∈ l, p c = true) : l.dropWhile p = [] := by
  induction l with
  | nil => rfl
  | cons a t ih =>
    simp [List.dropWhile_cons, h a (List.mem_cons_self a t),
      ih (fun c hc => h c (List.mem_cons_of_mem a hc))]

/-- `float()` on `ip ++ "." ++ fp` and on `ip` alone, for digit
strings. -/
theorem parseDecimalChars_digits (ip fp : List Char) (hip : ip ≠ [])
    (hipd : ∀ c ∈ ip, c ∈ digitChars) (hfpd : ∀ c ∈ fp, c ∈ digitChars) :
    parseDecimalChars (ip ++ '.' :: fp)
      = some ((digitsVal ip : ℤ) * 10 ^ fp.length + (digitsVal fp : ℤ),
          fp.length) ∧
    parseDecimalChars ip = some ((digitsVal ip : ℤ), 0) := by
  obtain ⟨c0, ip', rfl⟩ : ∃ c0 ip', ip = c0 :: ip' := by
    cases ip with
    | nil => exact absurd rfl hip
    | cons a t => exact ⟨a, t, rfl⟩
  have hc0 : c0 ∈ digitChars := hipd c0 (List.mem_cons_self _ _)
  have hne_dot : ∀ c ∈ c0 :: ip', (fun c => c ≠ '.' : Char → Bool) c = true := by
    intro c hc
    simp [digit_ne_dot (hipd c hc)]
  have hcount_ip : (c0 :: ip').count '.' = 0 := by
    rw [List.count_eq_zero]
    intro hmem
    exact digit_ne_dot (hipd '.' hmem) rfl
  have hcount_fp : fp.count '.' = 0 := by
    rw [List.count_eq_zero]
    intro hmem
    exact digit_ne_dot (hfpd '.' hmem) rfl
  constructor
  · show parseDecimalChars ((c0 :: ip') ++ '.' :: fp) = _
    unfold parseDecimalChars
    split
    · rename_i r heq
      rw [List.cons_append] at heq
      injection heq with h1 _
      exact absurd h1 (digit_ne_dash hc0)
    · rename_i r heq
      rw [List.cons_append] at heq
      injection heq with h1 _
      exact absurd h1 (digit_ne_plus hc0)
    · dsimp only
      rw [if_pos]
      · rw [takeWhile_append_all hne_dot, dropWhile_append_all hne_dot,
          List.takeWhile_cons, List.dropWhile_cons]
        simp
      · have hall : ((c0 :: ip') ++ '.' :: fp).all
            (fun c => c.isDigit || c = '.') = true := by
          rw [List.all_eq_true]
          intro c hc
          rcases List.mem_append.mp hc with h | h
          · simp [digit_isDigit (hipd c h)]
          · rcases List.mem_cons.mp h with rfl | h
            · simp
            · simp [digit_isDigit (hfpd c h)]
        have hcount : ((c0 :: ip') ++ '.' :: fp).count '.' = 1 := by
          rw [List.count_append, hcount_ip, List.count_cons]
          simp [hcount_fp]
        have hany : ((c0 :: ip') ++ '.' :: fp).any Char.isDigit = true := by
          rw [List.any_eq_true]
          exact ⟨c0, List.mem_append.mpr (Or.inl (List.mem_cons_self _ _)),
            digit_isDigit hc0⟩
        rw [hall, hcount, hany]
        simp
  · show parseDecimalChars (c0 :: ip') = _
    unfold parseDecimalChars
    split
    · rename_i r heq
      injection heq with h1 _
      exact absurd h1 (digit_ne_dash hc0)
    · rename_i r heq
      injection heq with h1 _
      exact absurd h1 (digit_ne_plus hc0)
    · dsimp only
      rw [if_pos]
      · rw [takeWhile_all hne_dot, dropWhile_all hne_dot]
        simp [digitsVal]
      · have hall : (c0 :: ip').all (fun c => c.isDigit || c = '.') = true := by
          rw [List.all_eq_true]
          intro c hc
          simp [digit_isDigit (hipd c hc)]
        have hany : (c0 :: ip').any Char.isDigit = true := by
          rw [List.any_eq_true]
          exact ⟨c0, List.mem_cons_self _ _, digit_isDigit hc0⟩
        rw [hall, hcount_ip, hany]
        simp

theorem sep_norm {sep : Char} (hsep : sep = '.' ∨ sep = ',') :
    normChar sep = '.' := by
  rcases hsep with rfl | rfl <;> decide

/-- The full `_parse_size` pipeline on a decimal numeral with separator
and suffix, once the suffix facts are supplied. -/
theorem parseSizeCharsF_norm_suffix (ip fp : List Char) (sep sfx : Char)
    (mult : ℤ) (hip : ip ≠ [])
    (hipd : ∀ c ∈ ip, c ∈ digitChars) (hfpd : ∀ c ∈ fp, c ∈ digitChars)
    (hsep : sep = '.' ∨ sep = ',')
    (hfind : sizeMultipliers.find? (fun p => p.1 = sfx) = some (sfx, mult))
    (hnormsfx : normChar sfx = sfx) (hwssfx : sfx.isWhitespace = false) :
    parseSizeCharsF (ip ++ sep :: fp ++ [sfx])
      = pyFloatScaledTrunc
          ((digitsVal ip : ℤ) * 10 ^ fp.length + (digitsVal fp : ℤ),
            fp.length) (multExp mult) := by
  have hl_ne : ip ++ sep :: fp ++ [sfx] ≠ [] := by simp
  unfold parseSizeCharsF
  rw [if_neg hl_ne]
  have hmap : (ip ++ sep :: fp ++ [sfx]).map normChar
      = ip ++ '.' :: fp ++ [sfx] := by
    simp only [List.map_append, List.map_cons, List.map_nil,
      map_normChar_digits hipd, map_normChar_digits hfpd, sep_norm hsep,
      hnormsfx]
  have hws_mid : ∀ c ∈ ip ++ '.' :: fp, c.isWhitespace = false := by
    intro c hc
    rcases List.mem_append.mp hc with h | h
    · exact digit_not_ws (hipd c h)
    · rcases List.mem_cons.mp h with rfl | h
      · decide
      · exact digit_not_ws (hfpd c h)
  have hws_all : ∀ c ∈ ip ++ '.' :: fp ++ [sfx], c.isWhitespace = false := by
    intro c hc
    rcases List.mem_append.mp hc with h | h
    · exact hws_mid c h
    · rw [List.mem_singleton.mp h]
      exact hwssfx
  rw [hmap, pyStrip_eq_self hws_all]
  dsimp only
  rw [List.getLast?_concat]
  dsimp only
  rw [hfind]
  dsimp only
  rw [List.dropLast_concat, pyStrip_eq_self hws_mid,
    (parseDecimalChars_digits ip fp hip hipd hfpd).1]

/-- The pipeline on a suffix-free decimal numeral. -/
theorem parseSizeCharsF_norm_nosuffix (ip fp : List Char) (sep : Char)
    (hip : ip ≠ [])
    (hipd : ∀ c ∈ ip, c ∈ digitChars) (hfpd : ∀ c ∈ fp, c ∈ digitChars)
    (hsep : sep = '.' ∨ sep = ',') :
    parseSizeCharsF (ip ++ sep :: fp)
      = pyFloatScaledTrunc
          ((digitsVal ip : ℤ) * 10 ^ fp.length + (digitsVal fp : ℤ),
            fp.length) 0 := by
  have hl_ne : ip ++ sep :: fp ≠ [] := by simp
  unfold parseSizeCharsF
  rw [if_neg hl_ne]
  have hmap : (ip ++ sep :: fp).map normChar = ip ++ '.' :: fp := by
    simp only [List.map_append, List.map_cons,
      map_normChar_digits hipd, map_normChar_digits hfpd, sep_norm hsep]
  have hws_mid : ∀ c ∈ ip ++ '.' :: fp, c.isWhitespace = false := by
    intro c hc
    rcases List.mem_append.mp hc with h | h
    · exact digit_not_ws (hipd c h)
    · rcases List.mem_cons.mp h with rfl | h
      · decide
      · exact digit_not_ws (hfpd c h)
  rw [hmap, pyStrip_eq_self hws_mid]
  have hparse := (parseDecimalChars_digits ip fp hip hipd hfpd).1
  rcases List.eq_nil_or_concat fp with rfl | ⟨fp', a, hfa⟩
  · dsimp only
    rw [List.getLast?_concat]
    dsimp only
    rw [show sizeMultipliers.find? (fun p => p.1 = '.') = none from by decide]
    dsimp only
    unfold parseSizeFallbackF
    rw [hparse]
  · rw [List.concat_eq_append] at hfa
    subst hfa
    have ha : a ∈ digitChars :=
      hfpd a (List.mem_append.mpr (Or.inr (List.mem_singleton_self a)))
    rw [show ip ++ '.' :: (fp' ++ [a]) = (ip ++ '.' :: fp') ++ [a] from by
      rw [List.append_assoc, List.cons_append]]
    dsimp only
    rw [List.getLast?_concat]
    dsimp only
    rw [digit_find_none ha]
    dsimp only
    unfold parseSizeFallbackF
    rw [List.append_assoc, List.cons_append, hparse]

/-- The pipeline on an integer numeral with suffix. -/
theorem parseSizeCharsF_int_suffix (ip : List Char) (sfx : Char) (mult : ℤ)
    (hip : ip ≠ []) (hipd : ∀ c ∈ ip, c ∈ digitChars)
    (hfind : sizeMultipliers.find? (fun p => p.1 = sfx) = some (sfx, mult))
    (hnormsfx : normChar sfx = sfx) (hwssfx : sfx.isWhitespace = false) :
    parseSizeCharsF (ip ++ [sfx])
      = pyFloatScaledTrunc ((digitsVal ip : ℤ), 0) (multExp mult) := by
  have hl_ne : ip ++ [sfx] ≠ [] := by simp
  unfold parseSizeCharsF
  rw [if_neg hl_ne]
  have hmap : (ip ++ [sfx]).map normChar = ip ++ [sfx] := by
    simp only [List.map_append, List.map_cons, List.map_nil,
      map_normChar_digits hipd, hnormsfx]
  have hws_all : ∀ c ∈ ip ++ [sfx], c.isWhitespace = false := by
    intro c hc
    rcases List.mem_append.mp hc with h | h
    · exact digit_not_ws (hipd c h)
    · rw [List.mem_singleton.mp h]
      exact hwssfx
  have hws_ip : ∀ c ∈ ip, c.isWhitespace = false :=
    fun c hc => digit_not_ws (hipd c hc)
  rw [hmap, pyStrip_eq_self hws_all]
  dsimp only
  rw [List.getLast?_concat]
  dsimp only
  rw [hfind]
  dsimp only
  rw [List.dropLast_concat, pyStrip_eq_self hws_ip,
    (parseDecimalChars_digits ip [] hip hipd (by simp)).2]

/-- The pipeline on a bare integer numeral (the raw-byte branch). -/
theorem parseSizeCharsF_int_nosuffix (ip : List Char) (hip : ip ≠ [])
    (hipd : ∀ c ∈ ip, c ∈ digitChars) :
    parseSizeCharsF ip = pyFloatScaledTrunc ((digitsVal ip : ℤ), 0) 0 := by
  unfold parseSizeCharsF
  rw [if_neg hip]
  have hws_ip : ∀ c ∈ ip, c.isWhitespace = false :=
    fun c hc => digit_not_ws (hipd c hc)
  rw [map_normChar_digits hipd, pyStrip_eq_self hws_ip]
  rcases List.eq_nil_or_concat ip with rfl | ⟨ip', a, hia⟩
  · exact absurd rfl hip
  · rw [List.concat_eq_append] at hia
    subst hia
    have ha : a ∈ digitChars :=
      hipd a (List.mem_append.mpr (Or.inr (List.mem_singleton_self a)))
    dsimp only
    rw [List.getLast?_concat]
    dsimp only
    rw [digit_find_none ha]
    unfold parseSizeFallbackF
    rw [(parseDecimalChars_digits (ip' ++ [a]) [] hip hipd (by simp)).2]

/-- C9 counterexample: the claimed exact truncation is off by one at
petabyte scale, because CPython computes `int(number * multiplier)` in
binary64 floating point.  `float("10.9")` rounds to
`6136154492292301 · 2⁻⁴⁹`, the scaling by `1024⁵ = 2⁵⁰` is exact, and
the program returns `12272308984584602` for `"10.9P"`, while the exact
truncation of `10.9 · 1024⁵` is `12272308984584601`. -/
theorem parse_size_float_counterexample :
    parseSizeF "10.9P" = some 12272308984584602 ∧
    intTruncDiv ((109 : ℤ) * 1024 ^ 5) 10 = 12272308984584601 ∧
    parseSizeF "10.9P" ≠ some (intTruncDiv ((109 : ℤ) * 1024 ^ 5) 10) := by
  refine ⟨by decide, by decide, by decide⟩

/-- C9 (amended): a number (`.` or `,` as decimal separator) followed by
one of the suffixes B/K/M/G/T/P parses to
`int(number * 1024 ^ power)` computed in IEEE-754 binary64: the numeral
is rounded to the nearest double (ties to even), the multiplication by
`1024 ^ power = 2 ^ (10 · power)` is an exact power-of-two scaling, and
the product is truncated toward zero.  On integer numerals below `2⁵³`
the double is exact, so the result is exactly the numeral times
`1024 ^ power`, and a bare such numeral is a raw byte count; the empty
string and an unparseable string give 0 instead of an error. -/
theorem parse_size_float_spec (ip fp : List Char) (sep : Char) (j : ℕ)
    (hip : ip ≠ []) (hipd : ∀ c ∈ ip, c ∈ digitChars)
    (hfpd : ∀ c ∈ fp, c ∈ digitChars)
    (hsep : sep = '.' ∨ sep = ',') (hj : j < 6) :
    parseSizeF ⟨ip ++ sep :: fp ++ [suffixChars.get ⟨j, hj⟩]⟩
      = pyFloatScaledTrunc
          ((digitsVal ip : ℤ) * 10 ^ fp.length + (digitsVal fp : ℤ),
            fp.length) (10 * j) ∧
    parseSizeF ⟨ip ++ [suffixChars.get ⟨j, hj⟩]⟩
      = pyFloatScaledTrunc ((digitsVal ip : ℤ), 0) (10 * j) ∧
    (digitsVal ip < 2 ^ 53 →
      parseSizeF ⟨ip ++ [suffixChars.get ⟨j, hj⟩]⟩
        = some ((digitsVal ip : ℤ) * 1024 ^ j)) ∧
    parseSizeF ⟨ip ++ sep :: fp⟩
      = pyFloatScaledTrunc
          ((digitsVal ip : ℤ) * 10 ^ fp.length + (digitsVal fp : ℤ),
            fp.length) 0 ∧
    (digitsVal ip < 2 ^ 53 → parseSizeF ⟨ip⟩ = some (digitsVal ip : ℤ)) ∧
    parseSizeF "" = some 0 ∧ parseSizeF "12x3" = some 0 := by
  have hmain : ∀ sfx mult tens,
      sizeMultipliers.find? (fun p => p.1 = sfx) = some (sfx, mult) →
      normChar sfx = sfx → sfx.isWhitespace = false → multExp mult = tens →
      parseSizeCharsF (ip ++ sep :: fp ++ [sfx])
        = pyFloatScaledTrunc
            ((digitsVal ip : ℤ) * 10 ^ fp.length + (digitsVal fp : ℤ),
              fp.length) tens ∧
      parseSizeCharsF (ip ++ [sfx])
        = pyFloatScaledTrunc ((digitsVal ip : ℤ), 0) tens := by
    intro sfx mult tens hfind hnorm hws htens
    subst htens
    exact ⟨parseSizeCharsF_norm_suffix ip fp sep sfx mult hip hipd hfpd hsep
        hfind hnorm hws,
      parseSizeCharsF_int_suffix ip sfx mult hip hipd hfind hnorm hws⟩
  refine ⟨?_, ?_, ?_,
    parseSizeCharsF_norm_nosuffix ip fp sep hip hipd hfpd hsep, ?_,
    by decide, by decide⟩
  · interval_cases j
    · exact (hmain 'B' (1024 ^ 0) (10 * 0) (by decide) (by decide) (by decide)
        (by decide)).1
    · exact (hmain 'K' (1024 ^ 1) (10 * 1) (by decide) (by decide) (by decide)
        (by decide)).1
    · exact (hmain 'M' (1024 ^ 2) (10 * 2) (by decide) (by decide) (by decide)
        (by decide)).1
    · exact (hmain 'G' (1024 ^ 3) (10 * 3) (by decide) (by decide) (by decide)
        (by decide)).1
    · exact (hmain 'T' (1024 ^ 4) (10 * 4) (by decide) (by decide) (by decide)
        (by decide)).1
    · exact (hmain 'P' (1024 ^ 5) (10 * 5) (by decide) (by decide) (by decide)
        (by decide)).1
  · interval_cases j
    · exact (hmain 'B' (1024 ^ 0) (10 * 0) (by decide) (by decide) (by decide)
        (by decide)).2
    · exact (hmain 'K' (1024 ^ 1) (10 * 1) (by decide) (by decide) (by decide)
        (by decide)).2
    · exact (hmain 'M' (1024 ^ 2) (10 * 2) (by decide) (by decide) (by decide)
        (by decide)).2
    · exact (hmain 'G' (1024 ^ 3) (10 * 3) (by decide) (by decide) (by decide)
        (by decide)).2
    · exact (hmain 'T' (1024 ^ 4) (10 * 4) (by decide) (by decide) (by decide)
        (by decide)).2
    · exact (hmain 'P' (1024 ^ 5) (10 * 5) (by decide) (by decide) (by decide)
        (by decide)).2
  · intro h53
    interval_cases j
    · exact (hmain 'B' (1024 ^ 0) (10 * 0) (by decide) (by decide) (by decide)
          (by decide)).2.trans
        (by rw [pyFloatScaledTrunc_nat_exact (digitsVal ip) h53 (10 * 0)
              (by norm_num),
            show ((2 : ℤ) ^ (10 * 0)) = 1024 ^ 0 from by norm_num])
    · exact (hmain 'K' (1024 ^ 1) (10 * 1) (by decide) (by decide) (by decide)
          (by decide)).2.trans
        (by rw [pyFloatScaledTrunc_nat_exact (digitsVal ip) h53 (10 * 1)
              (by norm_num),
            show ((2 : ℤ) ^ (10 * 1)) = 1024 ^ 1 from by norm_num])
    · exact (hmain 'M' (1024 ^ 2) (10 * 2) (by decide) (by decide) (by decide)
          (by decide)).2.trans
        (by rw [pyFloatScaledTrunc_nat_exact (digitsVal ip) h53 (10 * 2)
              (by norm_num),
            show ((2 : ℤ) ^ (10 * 2)) = 1024 ^ 2 from by norm_num])
    · exact (hmain 'G' (1024 ^ 3) (10 * 3) (by decide) (by decide) (by decide)
          (by decide)).2.trans
        (by rw [pyFloatScaledTrunc_nat_exact (digitsVal ip) h53 (10 * 3)
              (by norm_num),
            show ((2 : ℤ) ^ (10 * 3)) = 1024 ^ 3 from by norm_num])
    · exact (hmain 'T' (1024 ^ 4) (10 * 4) (by decide) (by decide) (by decide)
          (by decide)).2.trans
        (by rw [pyFloatScaledTrunc_nat_exact (digitsVal ip) h53 (10 * 4)
              (by norm_num),
            show ((2 : ℤ) ^ (10 * 4)) = 1024 ^ 4 from by norm_num])
    · exact (hmain 'P' (1024 ^ 5) (10 * 5) (by decide) (by decide) (by decide)
          (by decide)).2.trans
        (by rw [pyFloatScaledTrunc_nat_exact (digitsVal ip) h53 (10 * 5)
              (by norm_num),
            show ((2 : ℤ) ^ (10 * 5)) = 1024 ^ 5 from by norm_num])
  · intro h53
    exact (parseSizeCharsF_int_nosuffix ip hip hipd).trans
      (by rw [pyFloatScaledTrunc_nat_exact (digitsVal ip) h53 0 (by norm_num)]
          norm_num)

/-- C9 witness: `"10.9T"` is the double `10.9` scaled by `1024⁴` (here
equal to the exact truncation `11984676742758`), `"421M"` and `"100"`
are exactly-representable integer cases, and the degenerate strings
give `0`. -/
theorem parse_size_float_spec_witness :
    parseSizeF "10.9T" = some 11984676742758 ∧
    parseSizeF "421M" = some 441450496 ∧
    parseSizeF "100" = some 100 ∧
    parseSizeF "" = some 0 ∧ parseSizeF "12x3" = some 0 := by
  have hT := parse_size_float_spec ['1', '0'] ['9'] '.' 4 (by decide)
    (by decide) (by decide) (Or.inl rfl) (by decide)
  have hM := parse_size_float_spec ['4', '2', '1'] [] ',' 2 (by decide)
    (by decide) (by decide) (Or.inr rfl) (by decide)
  have h100 := parse_size_float_spec ['1', '0', '0'] [] '.' 0 (by decide)
    (by decide) (by decide) (Or.inl rfl) (by decide)
  refine ⟨?_, ?_, ?_, hT.2.2.2.2.2.1, hT.2.2.2.2.2.2⟩
  · have := hT.1
    rw [show (⟨['1', '0'] ++ '.' :: ['9'] ++
        [suffixChars.get ⟨4, by decide⟩]⟩ : String) = "10.9T" from rfl] at this
    rw [this]
    decide
  · have := hM.2.2.1 (by decide)
    rw [show (⟨['4', '2', '1'] ++
        [suffixChars.get ⟨2, by decide⟩]⟩ : String) = "421M" from rfl] at this
    rw [this]
    decide
  · have := h100.2.2.2.2.1 (by decide)
    rw [show (⟨['1', '0', '0']⟩ : String) = "100" from rfl] at this
    rw [this]
    decide

end RaidManager
